import Mathlib

/-!
# STM32 UART bootloader loader: record decoder, command exchange, load session

A shallow embedding of `usart-bootload-stm32.c`.  Bytes and characters are
natural numbers in `0..255`; C `int` values are integers.  The serial port is a
`Transport` (an arbitrary state machine answering `write`, `poll` and `read`),
the firmware image is the list of its bytes.

The model starts where the port is open and configured (line 48).  The C
library functions the program calls are modelled by what they do on Linux with
the GNU C library: `sscanf` with the conversions `%02X` and `%08X` (`scanX`),
`fgets` (`fileChunks`, `fgetsStore`), `memcmp` and `memcpy` (list operations).
The messages the program prints are left out.  Every function returns the
world it leaves behind, whose `log` lists the system calls made on the port.
-/

namespace Bootload

/-! ## Characters and the `%X` conversion of `sscanf` -/

/-- C `isspace` in the "C" locale: space, and the control characters 9..13. -/
def isspace (c : Nat) : Bool := c == 32 || (9 ≤ c && c ≤ 13)

/-- Value of a hexadecimal digit character (`0-9`, `A-F`, `a-f`), if it is one. -/
def hexval (c : Nat) : Option Nat :=
  if 48 ≤ c ∧ c ≤ 57 then some (c - 48)
  else if 65 ≤ c ∧ c ≤ 70 then some (c - 55)
  else if 97 ≤ c ∧ c ≤ 102 then some (c - 87)
  else none

/-- C `isxdigit`. -/
def isxdigit (c : Nat) : Bool := (hexval c).isSome

/-- The string a C function sees in a character array: the bytes before the
first NUL. -/
def cstr (bytes : List Nat) : List Nat := bytes.takeWhile (fun c => c != 0)

/-- Digit loop of a `%X` conversion: consume at most `w` hexadecimal digit
characters; returns the digit values and the unread input. -/
def scanDigits : Nat → List Nat → List Nat × List Nat
  | 0, s => ([], s)
  | _ + 1, [] => ([], [])
  | w + 1, c :: s =>
    match hexval c with
    | some d => (d :: (scanDigits w s).1, (scanDigits w s).2)
    | none => ([], c :: s)

/-- Number part of a `%X` conversion after the optional sign: a leading `0`
followed by `x` or `X` is taken as a base marker when the field width allows
both characters (the marker counts against the width and only the `0` is kept
as a digit), then the digit loop runs. -/
def scanBody : Nat → List Nat → List Nat × List Nat
  | w + 2, c :: x :: t =>
    if c = 48 ∧ (x = 120 ∨ x = 88) then (0 :: (scanDigits w t).1, (scanDigits w t).2)
    else scanDigits (w + 2) (c :: x :: t)
  | w, s => scanDigits w s

/-- Outcome of one `%X` conversion on a C string. -/
inductive Conv where
  | inputFailure : Conv
  | matchFailure : Conv
  | value (v : Nat) (rest : List Nat) : Conv
  deriving DecidableEq, Repr

/-- One `%<width>X` conversion of `sscanf`, as the C library performs it: skip
white space; end of string is an input failure; an optional `+` or `-` counts
against the width; the number is read by `scanBody`; no digit at all is a
matching failure; the value is converted as by `strtoul` (a `-` negates it)
and stored in 32 bits. -/
def scanX (width : Nat) (s : List Nat) : Conv :=
  match s.dropWhile isspace with
  | [] => Conv.inputFailure
  | c :: t =>
    let body := if c = 45 ∨ c = 43 then scanBody (width - 1) t else scanBody width (c :: t)
    match body.1 with
    | [] => Conv.matchFailure
    | d :: ds =>
      let v := (d :: ds).foldl (fun a x => a * 16 + x) 0
      Conv.value (if c = 45 then (2 ^ 32 - v % 2 ^ 32) % 2 ^ 32 else v % 2 ^ 32) body.2

/-- Reading an `unsigned int` bit pattern through an `int` object (32 bits,
two's complement): `sscanf` stores an unsigned value, `main` declares the
receiving variables as `int`. -/
def toInt32 (u : Nat) : Int := if u < 2 ^ 31 then (u : Int) else (u : Int) - 2 ^ 32

/-- Result of `sscanf(buffer2,"%02X%08X",&reclength,&recaddr)`: the return
value and the two stored integers.  A field that was not assigned is reported
as 0; `main` never reads it in that case. -/
structure ScanLenAddr where
  ret : Int
  reclength : Int
  recaddr : Int
  deriving DecidableEq, Repr

/-- Model of `sscanf(s,"%02X%08X",&reclength,&recaddr)` (line 127). -/
def sscanfLenAddr (s : List Nat) : ScanLenAddr :=
  match scanX 2 s with
  | Conv.inputFailure => ⟨-1, 0, 0⟩
  | Conv.matchFailure => ⟨0, 0, 0⟩
  | Conv.value v rest =>
    match scanX 8 rest with
    | Conv.value a _ => ⟨2, toInt32 v, toInt32 a⟩
    | _ => ⟨1, toInt32 v, 0⟩

/-- Model of `sscanf(s,"%02X",&r)` (line 146): the return value and `r`. -/
def sscanfByte (s : List Nat) : Int × Int :=
  match scanX 2 s with
  | Conv.inputFailure => (-1, 0)
  | Conv.matchFailure => (0, 0)
  | Conv.value v _ => (1, toInt32 v)

/-! ## The record decoder (lines 112-160) -/

/-- The data loop of lines 142-159, from index `i`, for `n` remaining
iterations: the two characters at offsets `i * 2 + 12` and `i * 2 + 13` of the
line buffer are copied to `buffer2`, terminated and scanned with `%02X`; a
failed conversion or a value outside `0..255` sets `e = 1` (here `none`).
The result lists `recdata[i+1], recdata[i+2], ...`. -/
def decodeData (buffer : List Nat) : Nat → Nat → Option (List Nat)
  | 0, _ => some []
  | n + 1, i =>
    let sc := sscanfByte (cstr ((buffer.drop (i * 2 + 12)).take 2))
    if sc.1 ≠ 1 then none
    else if ¬ (0 ≤ sc.2 ∧ sc.2 ≤ 255) then none
    else (decodeData buffer n (i + 1)).map (fun ds => sc.2.toNat :: ds)

/-- What the loop body of `main` makes of one line buffer before it talks to
the target. -/
inductive LineResult where
  | skipTag : LineResult
  | skipHeader : LineResult
  | skipRange : LineResult
  | skipData (recaddr : Int) : LineResult
  | record (recaddr : Int) (data : List Nat) : LineResult
  deriving DecidableEq, Repr

/-- Lines 117-160 applied to the content of the line buffer.
* `skipTag`: `memcmp("S3",buffer,2) != 0`;
* `skipHeader`: the `sscanf` of the ten characters after the tag did not
  return 2;
* `skipRange`: the test of line 134 failed.  `recaddr` is an `int`, and in
  `recaddr <= 0xffffffff` it is converted to `unsigned int`;
* `skipData`: the header passed (line 138 has run) and the data loop set
  `e = 1`;
* `record`: the line is written to the target. -/
def decodeLine (buffer : List Nat) : LineResult :=
  if buffer.take 2 ≠ [83, 51] then LineResult.skipTag
  else
    let sc := sscanfLenAddr (cstr ((buffer.drop 2).take 10))
    if sc.ret ≠ 2 then LineResult.skipHeader
    else
      let reclength := sc.reclength - 5
      let recaddr := sc.recaddr
      if ¬ (0 ≤ recaddr ∧ recaddr % 2 ^ 32 ≤ 0xffffffff ∧ 0 ≤ reclength ∧ reclength ≤ 64) then
        LineResult.skipRange
      else
        match decodeData buffer reclength.toNat 0 with
        | none => LineResult.skipData recaddr
        | some data => LineResult.record recaddr data

/-! ## Reading the image line by line -/

/-- The successive character sequences that `fgets(buffer,256,f)` delivers for
a file with the given bytes: each holds at most 255 characters and ends after
the first newline, if one comes that early.  `cur` is the part of the current
line already read. -/
def fileChunksAux : List Nat → List Nat → List (List Nat)
  | [], cur => if cur = [] then [] else [cur]
  | c :: f, cur =>
    if c = 10 ∨ cur.length + 1 = 255 then (cur ++ [c]) :: fileChunksAux f []
    else fileChunksAux f (cur ++ [c])

/-- The lines of the image as `fgets` delivers them, in file order. -/
def fileChunks (file : List Nat) : List (List Nat) := fileChunksAux file []

/-- Effect of one successful `fgets` on the line buffer: the characters read,
a terminating NUL, and behind it whatever the buffer held before. -/
def fgetsStore (buffer : List Nat) (chunk : List Nat) : List Nat :=
  chunk ++ [0] ++ buffer.drop (chunk.length + 1)

/-! ## The serial port -/

/-- The serial port and the target behind it, as an arbitrary state machine.
* `write s data` is `write(port,data,len)`: the returned count (or -1);
* `poll s timeout` is `poll` on the port for input: -1, 0 (timeout) or the
  number of ready descriptors;
* `read s count` is `read(port,_,count)`: `none` for -1, otherwise the bytes
  delivered (at most `count` of them are taken). -/
structure Transport (σ : Type) where
  write : σ → List Nat → Int × σ
  poll : σ → Int → Int × σ
  read : σ → Nat → Option (List Nat) × σ

/-- What a session did, in order.  The first three are the system calls on the
port with their results; `exchange` marks the return of one call of
`transmit_multi_c` with its arguments and result. -/
inductive Event where
  | write (data : List Nat) (ret : Int) : Event
  | poll (timeout : Int) (ret : Int) : Event
  | read (count : Nat) (ret : Int) (bytes : List Nat) : Event
  | exchange (payload : List Nat) (timeout : Int) (ret : Int) : Event
  deriving DecidableEq, Repr

/-- State of the port together with the trace of the session so far. -/
structure World (σ : Type) where
  st : σ
  log : List Event

/-- Result of a `read`: return value, bytes stored, world afterwards. -/
structure ReadRes (σ : Type) where
  ret : Int
  bytes : List Nat
  world : World σ

/-- The call `write(fd,data,len)` with `len = data.length`. -/
def sysWrite {σ : Type} (T : Transport σ) (w : World σ) (data : List Nat) : Int × World σ :=
  ((T.write w.st data).1,
    ⟨(T.write w.st data).2, w.log ++ [Event.write data (T.write w.st data).1]⟩)

/-- The call `read(fd,_,count)`; the bytes are stored as `uint8_t`. -/
def sysRead {σ : Type} (T : Transport σ) (w : World σ) (count : Nat) : ReadRes σ :=
  match T.read w.st count with
  | (none, s) => ⟨-1, [], ⟨s, w.log ++ [Event.read count (-1) []]⟩⟩
  | (some bs, s) =>
    ⟨((bs.take count).length : Int), (bs.take count).map (fun b => b % 256),
      ⟨s, w.log ++ [Event.read count ((bs.take count).length : Int)
        ((bs.take count).map (fun b => b % 256))]⟩⟩

/-- Model of `wait_input` (lines 214-219): the value of `poll`. -/
def wait_input {σ : Type} (T : Transport σ) (w : World σ) (timeout : Int) : Int × World σ :=
  ((T.poll w.st timeout).1,
    ⟨(T.poll w.st timeout).2, w.log ++ [Event.poll timeout (T.poll w.st timeout).1]⟩)

/-- Lines 234-237 of `receive_byte`: read one byte, -1 unless exactly one
byte came. -/
def readOne {σ : Type} (T : Transport σ) (w : World σ) : Int × World σ :=
  if (sysRead T w 1).ret ≠ 1 then (-1, (sysRead T w 1).world)
  else (((sysRead T w 1).bytes.headD 0 : Nat), (sysRead T w 1).world)

/-- Model of `receive_byte` (lines 222-238): the byte, -1 on error, -2 on
timeout. -/
def receive_byte {σ : Type} (T : Transport σ) (w : World σ) (timeout : Int) : Int × World σ :=
  if timeout ≠ 0 then
    if (wait_input T w timeout).1 = -1 then (-1, (wait_input T w timeout).2)
    else if (wait_input T w timeout).1 = 0 then (-2, (wait_input T w timeout).2)
    else readOne T (wait_input T w timeout).2
  else readOne T w

/-- The loop of `receive_multi` (lines 244-258).  `r` is the number of bytes
stored so far, `data` the caller's array; every `read` asks for `len` bytes and
stores what it gets from index `r` on.  Each pass adds at least one byte to `r`
or returns, so `len` passes always suffice: the first argument counts the
passes still allowed, and `receive_multi` starts it at `len`. -/
def receive_multi_loop {σ : Type} (T : Transport σ) (len : Nat) (timeout : Int) :
    Nat → World σ → List Nat → Nat → Int × List Nat × World σ
  | 0, w, data, _ => (0, data, w)
  | fuel + 1, w, data, r =>
    if r < len then
      let w1 := if timeout ≠ 0 then (wait_input T w timeout).2 else w
      if timeout ≠ 0 ∧ (wait_input T w timeout).1 = -1 then (-1, data, w1)
      else if timeout ≠ 0 ∧ (wait_input T w timeout).1 = 0 then (-2, data, w1)
      else if (sysRead T w1 len).ret < 1 then (-1, data, (sysRead T w1 len).world)
      else
        receive_multi_loop T len timeout fuel (sysRead T w1 len).world
          (data.take r ++ (sysRead T w1 len).bytes
            ++ data.drop (r + (sysRead T w1 len).bytes.length))
          (r + (sysRead T w1 len).bytes.length)
    else (0, data, w)

/-- Model of `receive_multi` (lines 241-260): result, the array afterwards,
the world afterwards. -/
def receive_multi {σ : Type} (T : Transport σ) (w : World σ) (data : List Nat) (len : Nat)
    (timeout : Int) : Int × List Nat × World σ :=
  receive_multi_loop T len timeout len w data 0

/-- The checksum byte `c` of `transmit_multi_c` (lines 268-275) for the
payload `data[0..len-1]`. -/
def checksum (data : List Nat) : Nat :=
  if data.length = 1 then 0xff - data.headD 0
  else data.tail.foldl (fun c d => c ^^^ d) (data.headD 0)

/-- Return from `transmit_multi_c` with value `ret`, recorded in the trace. -/
def exchanged {σ : Type} (w : World σ) (data : List Nat) (timeout : Int) (ret : Int) :
    Int × World σ :=
  (ret, ⟨w.st, w.log ++ [Event.exchange data timeout ret]⟩)

/-- Model of `transmit_multi_c` (lines 263-286) on the payload `data` with
`len = data.length`: 0 acknowledged, -1 I/O failure, -2 timeout, -3 any other
reply byte. -/
def transmit_multi_c {σ : Type} (T : Transport σ) (w : World σ) (data : List Nat)
    (timeout : Int) : Int × World σ :=
  if (sysWrite T w data).1 ≠ (data.length : Int) then
    exchanged (sysWrite T w data).2 data timeout (-1)
  else
    let wc := (sysWrite T (sysWrite T w data).2 [checksum data]).2
    let rb := receive_byte T wc timeout
    if rb.1 = -1 then exchanged rb.2 data timeout (-1)
    else if rb.1 = -2 then exchanged rb.2 data timeout (-2)
    else if rb.1 ≠ 121 then exchanged rb.2 data timeout (-3)
    else exchanged rb.2 data timeout 0

/-! ## The session (`main`, from the autobaud loop on) -/

/-- How the autobaud loop of lines 51-69 ends. -/
inductive Sync where
  | ok : Sync
  | writeError : Sync
  | exhausted : Sync
  deriving DecidableEq, Repr

/-- The autobaud loop (lines 51-63) with `n` iterations left (`n = 50 - i`). -/
def autobaudLoop {σ : Type} (T : Transport σ) : Nat → World σ → Sync × World σ
  | 0, w => (Sync.exhausted, w)
  | n + 1, w =>
    if (sysWrite T w [0x7f]).1 ≠ 1 then (Sync.writeError, (sysWrite T w [0x7f]).2)
    else if (receive_byte T (sysWrite T w [0x7f]).2 100).1 = 121 then
      (Sync.ok, (receive_byte T (sysWrite T w [0x7f]).2 100).2)
    else autobaudLoop T n (receive_byte T (sysWrite T w [0x7f]).2 100).2

/-- The four bytes `(a >> 24) & 0xff, (a >> 16) & 0xff, (a >> 8) & 0xff,
a & 0xff` of lines 170-173 and 199-202. -/
def addrBytes (a : Int) : List Nat :=
  [((a / 2 ^ 24) % 256).toNat, ((a / 2 ^ 16) % 256).toNat, ((a / 2 ^ 8) % 256).toNat,
    (a % 256).toNat]

/-- The array `recdata[0..reclength]` of lines 180-181: `reclength - 1` stored
as `uint8_t`, then the data bytes (`reclength = data.length`). -/
def recdata (data : List Nat) : List Nat :=
  (((data.length : Int) - 1) % 256).toNat :: data

/-- Line 138: the first header that passes the range test gives `startaddr`. -/
def setStart (startaddr recaddr : Int) : Int :=
  if startaddr = -1 then recaddr else startaddr

/-- The `while(fgets(...))` loop of lines 112-187 over the lines still to be
read.  Returns the exit status if the loop left `main` (`some 2`), the value
of `startaddr`, and the world. -/
def recordLoop {σ : Type} (T : Transport σ) :
    List (List Nat) → List Nat → Int → World σ → Option Int × Int × World σ
  | [], _, startaddr, w => (none, startaddr, w)
  | chunk :: rest, buffer, startaddr, w =>
    match decodeLine (fgetsStore buffer chunk) with
    | LineResult.skipTag => recordLoop T rest (fgetsStore buffer chunk) startaddr w
    | LineResult.skipHeader => recordLoop T rest (fgetsStore buffer chunk) startaddr w
    | LineResult.skipRange => recordLoop T rest (fgetsStore buffer chunk) startaddr w
    | LineResult.skipData recaddr =>
      recordLoop T rest (fgetsStore buffer chunk) (setStart startaddr recaddr) w
    | LineResult.record recaddr data =>
      if (transmit_multi_c T w [0x31] 100).1 ≠ 0 then
        (some 2, setStart startaddr recaddr, (transmit_multi_c T w [0x31] 100).2)
      else
        let w1 := (transmit_multi_c T w [0x31] 100).2
        if (transmit_multi_c T w1 (addrBytes recaddr) 100).1 ≠ 0 then
          (some 2, setStart startaddr recaddr, (transmit_multi_c T w1 (addrBytes recaddr) 100).2)
        else
          let w2 := (transmit_multi_c T w1 (addrBytes recaddr) 100).2
          if (transmit_multi_c T w2 (recdata data) 500).1 ≠ 0 then
            (some 2, setStart startaddr recaddr, (transmit_multi_c T w2 (recdata data) 500).2)
          else
            recordLoop T rest (fgetsStore buffer chunk) (setStart startaddr recaddr)
              (transmit_multi_c T w2 (recdata data) 500).2

/-- Lines 189-210: the Go command and its address. -/
def goCommand {σ : Type} (T : Transport σ) (w : World σ) (startaddr : Int) : Int × World σ :=
  let start := if startaddr = -1 then 0 else startaddr
  if (transmit_multi_c T w [0x21] 100).1 ≠ 0 then (2, (transmit_multi_c T w [0x21] 100).2)
  else
    let w1 := (transmit_multi_c T w [0x21] 100).2
    if (transmit_multi_c T w1 (addrBytes start) 100).1 ≠ 0 then
      (2, (transmit_multi_c T w1 (addrBytes start) 100).2)
    else (0, (transmit_multi_c T w1 (addrBytes start) 100).2)

/-- The second command-line argument: absent, a path `fopen` cannot open, or
a file with the given bytes. -/
inductive Image where
  | omitted : Image
  | unopenable : Image
  | file (bytes : List Nat) : Image
  deriving DecidableEq, Repr

/-- Lines 98-210: after identification, with `buffer` the content of the
256-byte array at that point. -/
def load {σ : Type} (T : Transport σ) (w : World σ) (buffer : List Nat) :
    Image → Int × World σ
  | Image.omitted => (0, w)
  | Image.unopenable => (1, w)
  | Image.file bytes =>
    match (recordLoop T (fileChunks bytes) buffer (-1) w).1 with
    | some status => (status, (recordLoop T (fileChunks bytes) buffer (-1) w).2.2)
    | none =>
      goCommand T (recordLoop T (fileChunks bytes) buffer (-1) w).2.2
        (recordLoop T (fileChunks bytes) buffer (-1) w).2.1

/-- Lines 70-97: Get-Version and Get-ID, each followed by four response bytes
read into `buffer`.  Returns the exit status if `main` returned here, the
array, and the world. -/
def identify {σ : Type} (T : Transport σ) (w : World σ) (buffer : List Nat) :
    Option Int × List Nat × World σ :=
  if (transmit_multi_c T w [0x01] 100).1 ≠ 0 then
    (some 2, buffer, (transmit_multi_c T w [0x01] 100).2)
  else
    let r1 := receive_multi T (transmit_multi_c T w [0x01] 100).2 buffer 4 100
    if r1.1 ≠ 0 then (some 2, r1.2.1, r1.2.2)
    else if (transmit_multi_c T r1.2.2 [0x02] 100).1 ≠ 0 then
      (some 2, r1.2.1, (transmit_multi_c T r1.2.2 [0x02] 100).2)
    else
      let r2 := receive_multi T (transmit_multi_c T r1.2.2 [0x02] 100).2 r1.2.1 4 100
      if r2.1 ≠ 0 then (some 2, r2.2.1, r2.2.2) else (none, r2.2.1, r2.2.2)

/-- The session after the port is open and configured (lines 48-210):
autobaud, identification, load and Go.  `s0` is the state of the port,
`buffer0` the content of the uninitialised 256-byte array `buffer`.  Returns
the exit status and the final world, whose trace starts empty. -/
def main {σ : Type} (T : Transport σ) (s0 : σ) (buffer0 : List Nat) (image : Image) :
    Int × World σ :=
  match (autobaudLoop T 50 ⟨s0, []⟩).1 with
  | Sync.writeError => (2, (autobaudLoop T 50 ⟨s0, []⟩).2)
  | Sync.exhausted => (2, (autobaudLoop T 50 ⟨s0, []⟩).2)
  | Sync.ok =>
    match (identify T (autobaudLoop T 50 ⟨s0, []⟩).2 buffer0).1 with
    | some status => (status, (identify T (autobaudLoop T 50 ⟨s0, []⟩).2 buffer0).2.2)
    | none =>
      load T (identify T (autobaudLoop T 50 ⟨s0, []⟩).2 buffer0).2.2
        (identify T (autobaudLoop T 50 ⟨s0, []⟩).2 buffer0).2.1 image

/-! ## Test targets -/

/-- One scripted reaction of a target to a wait-and-read. -/
inductive Reply where
  | timeout : Reply
  | pollError : Reply
  | readError : Reply
  | bytes (bs : List Nat) : Reply
  deriving DecidableEq, Repr

/-- A target that takes every write in full and answers the successive
wait-and-read attempts as scripted, one `Reply` each; when the script is used
up every wait times out. -/
def scripted : Transport (List Reply) where
  write := fun s data => ((data.length : Int), s)
  poll := fun s _ =>
    match s with
    | [] => (0, [])
    | Reply.timeout :: rest => (0, rest)
    | Reply.pollError :: rest => (-1, rest)
    | _ :: _ => (1, s)
  read := fun s _ =>
    match s with
    | Reply.bytes bs :: rest => (some bs, rest)
    | _ :: rest => (none, rest)
    | [] => (none, [])

/-- A target that takes every write in full and answers every read with the
single byte 0x79. -/
def ackTarget : Transport Unit where
  write := fun s data => ((data.length : Int), s)
  poll := fun s _ => (1, s)
  read := fun s _ => (some [0x79], s)

/-- The calls of `transmit_multi_c` in a trace: payload, timeout, result. -/
def exchangesOf (log : List Event) : List (List Nat × Int × Int) :=
  log.filterMap (fun e =>
    match e with
    | Event.exchange p t r => some (p, t, r)
    | _ => none)

/-- The data of the writes in a trace, in order. -/
def writesOf (log : List Event) : List (List Nat) :=
  log.filterMap (fun e =>
    match e with
    | Event.write d _ => some d
    | _ => none)

/-! ## Specification-side notions -/

/-- Value of a hexadecimal digit character, 0 for any other character. -/
def hv (c : Nat) : Nat := (hexval c).getD 0

/-- Big-endian value of a sequence of hexadecimal digit values: the first
digit is the most significant. -/
def beValue : List Nat → Nat
  | [] => 0
  | d :: ds => d * 16 ^ ds.length + beValue ds

/-- Values of the successive two-character pairs of a hexadecimal string. -/
def pairValues : List Nat → List Nat
  | a :: b :: t => (16 * hv a + hv b) :: pairValues t
  | _ => []

/-- What follows the last character of a line in the line buffer when `fgets`
has stored it: the terminating NUL, or a newline and the NUL, or a carriage
return and a newline. -/
def LineEnd (rest : List Nat) : Prop :=
  ∃ t, rest = 0 :: t ∨ rest = 10 :: 0 :: t ∨ rest = 13 :: 10 :: 0 :: t

/-- A stretch of trace made of `poll` and `read` calls only. -/
def InputOnly (evs : List Event) : Prop :=
  ∀ e ∈ evs, (∃ t r, e = Event.poll t r) ∨ (∃ n r b, e = Event.read n r b)

/-- A scripted reply that `receive_byte` returns as the ACK byte 0x79. -/
def isAck : Reply → Bool
  | Reply.bytes (b :: _) => b % 256 == 0x79
  | _ => false

/-- A target that acknowledges: every write is taken in full, every wait finds
input, every one-byte read delivers 0x79 and every read delivers at least one
byte. -/
structure Acks {σ : Type} (T : Transport σ) : Prop where
  write_all : ∀ s data, (T.write s data).1 = (data.length : Int)
  ready : ∀ s t, (T.poll s t).1 ≠ -1 ∧ (T.poll s t).1 ≠ 0
  ack : ∀ s, ∃ tl, (T.read s 1).1 = some (0x79 :: tl)
  answer : ∀ s n, ∃ b tl, (T.read s n).1 = some (b :: tl)

/-- The exchanges the loop body issues for a line, on a target that
acknowledges: three for a record, none for a skipped line. -/
def lineExchanges : LineResult → List (List Nat × Int × Int)
  | LineResult.record recaddr data =>
    [([0x31], 100, 0), (addrBytes recaddr, 100, 0), (recdata data, 500, 0)]
  | _ => []

/-- What the decoder makes of the successive lines of an image, the line
buffer being reused from line to line. -/
def lineResults : List Nat → List (List Nat) → List LineResult
  | _, [] => []
  | buffer, chunk :: rest =>
    decodeLine (fgetsStore buffer chunk) :: lineResults (fgetsStore buffer chunk) rest

/-- Whether a line was decoded to a record. -/
def isRecord : LineResult → Bool
  | LineResult.record _ _ => true
  | _ => false

/-- The value of `startaddr` after the given lines: line 138 runs for every
line whose header passed the range test. -/
def startAfter : Int → List LineResult → Int
  | s, [] => s
  | s, LineResult.skipData a :: rest => startAfter (setStart s a) rest
  | s, LineResult.record a _ :: rest => startAfter (setStart s a) rest
  | s, _ :: rest => startAfter s rest

/-- The exchanges issued for a sequence of decoded lines, in order. -/
def allLineExchanges : List LineResult → List (List Nat × Int × Int)
  | [] => []
  | r :: rs => lineExchanges r ++ allLineExchanges rs

/-- The content of the array `buffer` when the line loop starts: what the two
identification reads left in it. -/
def identBuffer {σ : Type} (T : Transport σ) (s0 : σ) (buffer0 : List Nat) : List Nat :=
  (identify T (autobaudLoop T 50 ⟨s0, []⟩).2 buffer0).2.1

/-- The address sent after the Go command for a final value of `startaddr`
(line 189). -/
def entryAddress (startaddr : Int) : Int := if startaddr = -1 then 0 else startaddr

/-- A trace in which every exchange was acknowledged. -/
def Clean (l : List Event) : Prop := ∀ p t r, Event.exchange p t r ∈ l → r = 0

/-- A trace that ends with an exchange that was not acknowledged, the first
such exchange of the trace. -/
def Stopped (l : List Event) : Prop :=
  ∃ before p t r, l = before ++ [Event.exchange p t r] ∧ r ≠ 0 ∧ Clean before

/-- A trace in which every exchange has one of the four results. -/
def Ranged (l : List Event) : Prop :=
  ∀ p t r, Event.exchange p t r ∈ l → r = 0 ∨ r = -1 ∨ r = -2 ∨ r = -3

/-- The result of the `sscanf` of line 127 for a line buffer: the ten
characters after the tag, as a C string, scanned with `%02X%08X`. -/
def lineHeader (buffer : List Nat) : ScanLenAddr :=
  sscanfLenAddr (cstr ((buffer.drop 2).take 10))

/-- The bytes put on the wire in a trace: the data of its writes, in order. -/
def wireBytes : List Event → List Nat
  | [] => []
  | Event.write d _ :: rest => d ++ wireBytes rest
  | _ :: rest => wireBytes rest

/-- The two characters of data position `i` in the line buffer (offsets
`i * 2 + 12` and `i * 2 + 13`), as line 144 copies them. -/
def dataPair (buffer : List Nat) (i : Nat) : List Nat := (buffer.drop (i * 2 + 12)).take 2

/-- Whether lines 146-157 accept the two characters of a data position: the
`%02X` conversion returns 1 and the value is in `0..255`. -/
def byteConverts (p : List Nat) : Bool :=
  decide ((sscanfByte (cstr p)).1 = 1 ∧ 0 ≤ (sscanfByte (cstr p)).2 ∧ (sscanfByte (cstr p)).2 ≤ 255)

/-- The array accesses of one pass of the loop body of lines 112-187: the
indices of the line buffer `buffer` that are read, the indices of the scratch
array `buffer2` and of the array `recdata` that are written, and the declared
size of `recdata` (0 when its declaration is not reached). -/
structure Access where
  bufferReads : List Nat
  buffer2Writes : List Nat
  recdataWrites : List Nat
  recdataSize : Nat
  deriving DecidableEq, Repr

/-- Accesses of the data loop of lines 142-159 from index `i` for `n`
remaining iterations, following `decodeData`: each iteration reads
`buffer[i*2+12]` and `buffer[i*2+13]` (line 144), writes `buffer2[0..1]` and
`buffer2[2]` (lines 144-145), and, when the conversion is accepted, writes
`recdata[i+1]` (line 158); a rejected conversion ends the loop.  Returns the
buffer reads, the `buffer2` writes and the `recdata` writes. -/
def dataLoopAccess (buffer : List Nat) : Nat → Nat → List Nat × List Nat × List Nat
  | 0, _ => ([], [], [])
  | n + 1, i =>
    let sc := sscanfByte (cstr ((buffer.drop (i * 2 + 12)).take 2))
    if sc.1 ≠ 1 then ([i * 2 + 12, i * 2 + 13], [0, 1, 2], [])
    else if ¬ (0 ≤ sc.2 ∧ sc.2 ≤ 255) then ([i * 2 + 12, i * 2 + 13], [0, 1, 2], [])
    else
      ([i * 2 + 12, i * 2 + 13] ++ (dataLoopAccess buffer n (i + 1)).1,
        [0, 1, 2] ++ (dataLoopAccess buffer n (i + 1)).2.1,
        (i + 1) :: (dataLoopAccess buffer n (i + 1)).2.2)

/-- Accesses of the loop body on a line buffer, following `decodeLine`:
`memcmp` reads `buffer[0..1]` (line 117); `memcpy` reads `buffer[2..11]` into
`buffer2[0..9]` and line 126 writes `buffer2[10]`; after the range test
`recdata` is declared with `reclength + 1` elements and the data loop runs;
for a decoded record lines 170-173 write `buffer2[0..3]` and line 180 writes
`recdata[0]`. -/
def decodeAccess (buffer : List Nat) : Access :=
  if buffer.take 2 ≠ [83, 51] then ⟨[0, 1], [], [], 0⟩
  else
    let sc := sscanfLenAddr (cstr ((buffer.drop 2).take 10))
    if sc.ret ≠ 2 then
      ⟨[0, 1, 2, 3, 4, 5, 6, 7, 8, 9, 10, 11], [0, 1, 2, 3, 4, 5, 6, 7, 8, 9, 10], [], 0⟩
    else
      let reclength := sc.reclength - 5
      let recaddr := sc.recaddr
      if ¬ (0 ≤ recaddr ∧ recaddr % 2 ^ 32 ≤ 0xffffffff ∧ 0 ≤ reclength ∧ reclength ≤ 64) then
        ⟨[0, 1, 2, 3, 4, 5, 6, 7, 8, 9, 10, 11], [0, 1, 2, 3, 4, 5, 6, 7, 8, 9, 10], [], 0⟩
      else
        match decodeData buffer reclength.toNat 0 with
        | none =>
          ⟨[0, 1, 2, 3, 4, 5, 6, 7, 8, 9, 10, 11] ++ (dataLoopAccess buffer reclength.toNat 0).1,
            [0, 1, 2, 3, 4, 5, 6, 7, 8, 9, 10] ++ (dataLoopAccess buffer reclength.toNat 0).2.1,
            (dataLoopAccess buffer reclength.toNat 0).2.2, reclength.toNat + 1⟩
        | some _ =>
          ⟨[0, 1, 2, 3, 4, 5, 6, 7, 8, 9, 10, 11] ++ (dataLoopAccess buffer reclength.toNat 0).1,
            [0, 1, 2, 3, 4, 5, 6, 7, 8, 9, 10] ++ (dataLoopAccess buffer reclength.toNat 0).2.1
              ++ [0, 1, 2, 3],
            (dataLoopAccess buffer reclength.toNat 0).2.2 ++ [0], reclength.toNat + 1⟩

/-! ## Theorems -/

/-! ### The record decoder on well-formed lines -/

theorem isxdigit_iff (c : Nat) :
    isxdigit c = true ↔ (48 ≤ c ∧ c ≤ 57) ∨ (65 ≤ c ∧ c ≤ 70) ∨ (97 ≤ c ∧ c ≤ 102) := by
  unfold isxdigit hexval
  split_ifs <;> simp <;> omega

theorem hexval_of_isxdigit {c : Nat} (h : isxdigit c = true) : hexval c = some (hv c) := by
  unfold hv
  unfold isxdigit at h
  cases hc : hexval c with
  | none => simp [hc] at h
  | some d => simp

theorem hv_lt {c : Nat} : hv c < 16 := by
  unfold hv hexval
  split_ifs <;> simp <;> omega

theorem isspace_of_isxdigit {c : Nat} (h : isxdigit c = true) : isspace c = false := by
  rw [isxdigit_iff] at h
  unfold isspace
  simp
  omega

theorem scanDigits_hex (hs rest : List Nat) (h : ∀ c ∈ hs, isxdigit c = true) :
    scanDigits hs.length (hs ++ rest) = (hs.map hv, rest) := by
  induction hs with
  | nil => cases rest <;> simp [scanDigits]
  | cons c t ih =>
    have hc := hexval_of_isxdigit (h c (by simp))
    have ht := ih (fun x hx => h x (by simp [hx]))
    simp [scanDigits, hc, ht]

theorem scanBody_hex (hs rest : List Nat) (h : ∀ c ∈ hs, isxdigit c = true) :
    scanBody hs.length (hs ++ rest) = (hs.map hv, rest) := by
  match hs, h with
  | [], _ => cases rest <;> simp [scanBody, scanDigits]
  | [c], h =>
    have := scanDigits_hex [c] rest h
    cases rest <;> simpa [scanBody] using this
  | c :: x :: t, h =>
    have hx := (isxdigit_iff x).1 (h x (by simp))
    have := scanDigits_hex (c :: x :: t) rest h
    have hne : ¬ (c = 48 ∧ (x = 120 ∨ x = 88)) := by omega
    simp only [List.length_cons, List.cons_append] at this ⊢
    simp only [scanBody, hne, if_false]
    exact this

theorem foldl_hex_eq (ds : List Nat) (a : Nat) :
    ds.foldl (fun a x => a * 16 + x) a = a * 16 ^ ds.length + beValue ds := by
  induction ds generalizing a with
  | nil => simp [beValue]
  | cons d t ih =>
    simp only [List.foldl_cons, ih, beValue, List.length_cons]
    ring

theorem beValue_lt (ds : List Nat) (h : ∀ d ∈ ds, d < 16) : beValue ds < 16 ^ ds.length := by
  induction ds with
  | nil => simp [beValue]
  | cons d t ih =>
    have hd := h d (by simp)
    have ht := ih (fun x hx => h x (by simp [hx]))
    simp only [beValue, List.length_cons, pow_succ]
    nlinarith

theorem scanX_hex (hs rest : List Nat) (h : ∀ c ∈ hs, isxdigit c = true) (hne : hs ≠ []) :
    scanX hs.length (hs ++ rest) = Conv.value (beValue (hs.map hv) % 2 ^ 32) rest := by
  match hs, h, hne with
  | c :: t, h, _ =>
    have hc := (isxdigit_iff c).1 (h c (by simp))
    have hsp := isspace_of_isxdigit (h c (by simp))
    have hb := scanBody_hex (c :: t) rest h
    have h43 : ¬ (c = 43) := by omega
    have h45 : ¬ (c = 45) := by omega
    simp only [List.length_cons, List.cons_append] at hb
    simp only [scanX, List.cons_append, List.dropWhile_cons, hsp, Bool.false_eq_true, if_false,
      h43, h45, or_self, List.length_cons, hb, List.map_cons]
    have := foldl_hex_eq (hv c :: t.map hv) 0
    simp only [zero_mul, zero_add] at this
    rw [this]

theorem cstr_hex (hs : List Nat) (h : ∀ c ∈ hs, isxdigit c = true) : cstr hs = hs := by
  unfold cstr
  rw [List.takeWhile_eq_self_iff]
  intro c hc
  have := (isxdigit_iff c).1 (h c hc)
  simp
  omega

theorem sscanfByte_lineEnd (rest : List Nat) (h : LineEnd rest) :
    (sscanfByte (cstr (rest.take 2))).1 = -1 := by
  obtain ⟨t, h | h | h⟩ := h <;> subst h
  · simp [cstr, sscanfByte, scanX]
  · simp [cstr, sscanfByte, scanX, isspace]
  · simp [cstr, sscanfByte, scanX, isspace]

theorem toInt32_small {u : Nat} (h : u < 2 ^ 31) : toInt32 u = (u : Int) := by
  unfold toInt32
  rw [if_pos h]

theorem sscanfByte_pair (a b : Nat) (ha : isxdigit a = true) (hb : isxdigit b = true) :
    sscanfByte (cstr [a, b]) = (1, ((16 * hv a + hv b : Nat) : Int)) := by
  have hall : ∀ c ∈ [a, b], isxdigit c = true := by
    intro c hc
    simp at hc
    rcases hc with rfl | rfl <;> assumption
  have hx := scanX_hex [a, b] [] hall (by simp)
  have h1 := @hv_lt a
  have h2 := @hv_lt b
  have hval : beValue ([a, b].map hv) = 16 * hv a + hv b := by
    simp [beValue]; ring
  rw [cstr_hex _ hall]
  simp only [List.length_cons, List.length_nil, List.append_nil, hval] at hx
  have hx2 : scanX 2 [a, b] = Conv.value ((16 * hv a + hv b) % 2 ^ 32) [] := hx
  have hmod : (16 * hv a + hv b) % 2 ^ 32 = 16 * hv a + hv b := Nat.mod_eq_of_lt (by omega)
  rw [hmod] at hx2
  simp only [sscanfByte, hx2]
  rw [toInt32_small (by omega)]

theorem decodeData_hex (n : Nat) : ∀ (pre body rest : List Nat) (i : Nat),
    pre.length = i * 2 + 12 → (∀ c ∈ body, isxdigit c = true) → body.length % 2 = 0 →
    (2 * n ≤ body.length ∨ LineEnd rest) →
    decodeData (pre ++ body ++ rest) n i =
      if 2 * n ≤ body.length then some (pairValues (body.take (2 * n))) else none := by
  induction n with
  | zero => intro pre body rest i _ _ _ _; simp [decodeData, pairValues]
  | succ n ih =>
    intro pre body rest i hpre hbody heven hend
    match body, hbody, heven, hend with
    | [], _, _, hend =>
      have hle : LineEnd rest := by
        rcases hend with h | h
        · simp at h
        · exact h
      have hf := sscanfByte_lineEnd rest hle
      have hdrop : (pre ++ [] ++ rest).drop (i * 2 + 12) = rest := by
        rw [← hpre]; simp
      simp only [decodeData, hdrop, hf]
      simp
    | [a], _, heven, _ => simp at heven
    | a :: b :: t, hbody, heven, hend =>
      have ha := hbody a (by simp)
      have hb := hbody b (by simp)
      have hdrop : (pre ++ a :: b :: t ++ rest).drop (i * 2 + 12) = a :: b :: (t ++ rest) := by
        rw [← hpre]; simp
      have hp := sscanfByte_pair a b ha hb
      have h1 := @hv_lt a
      have h2 := @hv_lt b
      have hrec := ih (pre ++ [a, b]) t rest (i + 1) (by simp [hpre]; ring)
        (fun c hc => hbody c (by simp [hc])) (by simp at heven; omega)
        (by
          rcases hend with h | h
          · left; simp at h; omega
          · right; exact h)
      have hre : pre ++ a :: b :: t ++ rest = pre ++ [a, b] ++ t ++ rest := by simp
      have htk : (a :: b :: t).take (2 * (n + 1)) = a :: b :: t.take (2 * n) := by
        have : 2 * (n + 1) = 2 * n + 1 + 1 := by ring
        rw [this]; simp
      simp only [decodeData, hdrop, List.take_succ_cons, List.take_zero, hp, htk, pairValues]
      rw [hre, hrec]
      have hr : (0 : Int) ≤ ((16 * hv a + hv b : Nat) : Int) ∧
          ((16 * hv a + hv b : Nat) : Int) ≤ 255 := by
        constructor <;> omega
      have hnn : ((16 * hv a + hv b : Nat) : Int).toNat = 16 * hv a + hv b := Int.toNat_ofNat _
      simp only [List.length_cons]
      by_cases hc : 2 * n ≤ t.length
      · have hc2 : 2 * (n + 1) ≤ t.length + 1 + 1 := by omega
        simp only [hc, hc2, if_true, hr, hnn]
        simp
      · have hc2 : ¬ (2 * (n + 1) ≤ t.length + 1 + 1) := by omega
        simp only [hc, hc2, if_false, hr, hnn]
        simp

theorem sscanfLenAddr_hex (l1 l2 : Nat) (as : List Nat) (hl1 : isxdigit l1 = true)
    (hl2 : isxdigit l2 = true) (has : as.length = 8) (hasx : ∀ c ∈ as, isxdigit c = true) :
    sscanfLenAddr (cstr (l1 :: l2 :: as)) =
      ⟨2, ((16 * hv l1 + hv l2 : Nat) : Int), toInt32 (beValue (as.map hv))⟩ := by
  have hall2 : ∀ c ∈ [l1, l2], isxdigit c = true := by
    intro c hc
    simp at hc
    rcases hc with rfl | rfl <;> assumption
  have hall : ∀ c ∈ l1 :: l2 :: as, isxdigit c = true := by
    intro c hc
    simp at hc
    rcases hc with rfl | rfl | h
    · exact hl1
    · exact hl2
    · exact hasx c h
  have h1 := @hv_lt l1
  have h2 := @hv_lt l2
  have hx1 : scanX 2 (l1 :: l2 :: as) = Conv.value (16 * hv l1 + hv l2) as := by
    have hx := scanX_hex [l1, l2] as hall2 (by simp)
    have hval : beValue ([l1, l2].map hv) = 16 * hv l1 + hv l2 := by
      simp [beValue]; ring
    have hmod : (16 * hv l1 + hv l2) % 2 ^ 32 = 16 * hv l1 + hv l2 :=
      Nat.mod_eq_of_lt (by omega)
    rw [hval, hmod] at hx
    exact hx
  have hne : as ≠ [] := by
    intro h; rw [h] at has; simp at has
  have hx2 : scanX 8 as = Conv.value (beValue (as.map hv)) [] := by
    have hx := scanX_hex as [] hasx hne
    have hlt := beValue_lt (as.map hv) (by
      intro d hd
      simp at hd
      obtain ⟨c, _, rfl⟩ := hd
      exact hv_lt)
    have hmod : beValue (as.map hv) % 2 ^ 32 = beValue (as.map hv) := by
      apply Nat.mod_eq_of_lt
      simp only [List.length_map, has] at hlt
      exact hlt
    rw [has, List.append_nil, hmod] at hx
    exact hx
  rw [cstr_hex _ hall]
  simp only [sscanfLenAddr, hx1, hx2]
  rw [toInt32_small (by omega)]

theorem decodeLine_hex (l1 l2 : Nat) (as body rest : List Nat) (hl1 : isxdigit l1 = true)
    (hl2 : isxdigit l2 = true) (has : as.length = 8) (hasx : ∀ c ∈ as, isxdigit c = true)
    (hbody : ∀ c ∈ body, isxdigit c = true) (heven : body.length % 2 = 0)
    (hend : 128 ≤ body.length ∨ LineEnd rest) :
    decodeLine ([83, 51, l1, l2] ++ as ++ body ++ rest) =
      if beValue (as.map hv) < 2 ^ 31 ∧ 5 ≤ 16 * hv l1 + hv l2 ∧ 16 * hv l1 + hv l2 ≤ 69 then
        if 2 * (16 * hv l1 + hv l2 - 5) ≤ body.length then
          LineResult.record (beValue (as.map hv) : Nat)
            (pairValues (body.take (2 * (16 * hv l1 + hv l2 - 5))))
        else LineResult.skipData (beValue (as.map hv) : Nat)
      else LineResult.skipRange := by
  have hsc := sscanfLenAddr_hex l1 l2 as hl1 hl2 has hasx
  have htake : (([83, 51, l1, l2] ++ as ++ body ++ rest).drop 2).take 10 = l1 :: l2 :: as := by
    have : ([83, 51, l1, l2] ++ as ++ body ++ rest).drop 2 = (l1 :: l2 :: as) ++ (body ++ rest) := by
      simp
    rw [this]
    exact List.take_left' (by simp [has])
  have htag : ([83, 51, l1, l2] ++ as ++ body ++ rest).take 2 = [83, 51] := by simp
  have hlt := beValue_lt (as.map hv) (by
    intro d hd
    simp at hd
    obtain ⟨c, _, rfl⟩ := hd
    exact hv_lt)
  simp only [List.length_map, has] at hlt
  have hmodle : ∀ x : Int, x % 2 ^ 32 ≤ 0xffffffff := by
    intro x
    have := Int.emod_lt_of_pos x (show (0 : Int) < 2 ^ 32 by norm_num)
    omega
  unfold decodeLine
  rw [htag, htake, hsc]
  simp only [ne_eq, not_true_eq_false, if_false]
  by_cases hA : beValue (as.map hv) < 2 ^ 31
  · rw [toInt32_small hA]
    by_cases hL : 5 ≤ 16 * hv l1 + hv l2 ∧ 16 * hv l1 + hv l2 ≤ 69
    · have hcond : (0 : Int) ≤ (beValue (as.map hv) : Nat) ∧
          ((beValue (as.map hv) : Nat) : Int) % 2 ^ 32 ≤ 0xffffffff ∧
          (0 : Int) ≤ ((16 * hv l1 + hv l2 : Nat) : Int) - 5 ∧
          ((16 * hv l1 + hv l2 : Nat) : Int) - 5 ≤ 64 := by
        refine ⟨by omega, hmodle _, by omega, by omega⟩
      have hn : (((16 * hv l1 + hv l2 : Nat) : Int) - 5).toNat = 16 * hv l1 + hv l2 - 5 := by
        omega
      have hd := decodeData_hex (16 * hv l1 + hv l2 - 5) ([83, 51, l1, l2] ++ as) body rest 0
        (by simp [has]) hbody heven (by
          rcases hend with h | h
          · left; omega
          · right; exact h)
      rw [if_neg (not_not.2 hcond), hn, if_pos (And.intro hA hL)]
      by_cases hb : 2 * (16 * hv l1 + hv l2 - 5) ≤ body.length
      · rw [if_pos hb] at hd
        rw [hd, if_pos hb]
      · rw [if_neg hb] at hd
        rw [hd, if_neg hb]
    · have hcond : ¬ ((0 : Int) ≤ (beValue (as.map hv) : Nat) ∧
          ((beValue (as.map hv) : Nat) : Int) % 2 ^ 32 ≤ 0xffffffff ∧
          (0 : Int) ≤ ((16 * hv l1 + hv l2 : Nat) : Int) - 5 ∧
          ((16 * hv l1 + hv l2 : Nat) : Int) - 5 ≤ 64) := by
        intro h
        apply hL
        omega
      rw [if_pos hcond, if_neg (fun h => hL h.2)]
  · have hneg : toInt32 (beValue (as.map hv)) < 0 := by
      unfold toInt32
      rw [if_neg hA]
      omega
    have hcond : ¬ ((0 : Int) ≤ toInt32 (beValue (as.map hv)) ∧
        toInt32 (beValue (as.map hv)) % 2 ^ 32 ≤ 0xffffffff ∧
        (0 : Int) ≤ ((16 * hv l1 + hv l2 : Nat) : Int) - 5 ∧
        ((16 * hv l1 + hv l2 : Nat) : Int) - 5 ≤ 64) := by
      intro h
      omega
    rw [if_pos hcond, if_neg (fun h => hA h.1)]

theorem fileChunksAux_first (more : List Nat) : ∀ (l cur : List Nat), (∀ c ∈ l, c ≠ 10) →
    cur.length < 255 →
    (fileChunksAux (l ++ 10 :: more) cur).head? = some ((cur ++ l ++ [10]).take 255) := by
  intro l
  induction l with
  | nil =>
    intro cur _ hcur
    simp only [List.nil_append, fileChunksAux, true_or, if_true, List.head?_cons,
      List.append_nil]
    rw [List.take_of_length_le (by simp; omega)]
  | cons c t ih =>
    intro cur hl hcur
    have hc : c ≠ 10 := hl c (by simp)
    by_cases hfull : cur.length + 1 = 255
    · simp only [List.cons_append, fileChunksAux, hfull, or_true, if_true, List.head?_cons]
      have : cur ++ c :: t ++ [10] = (cur ++ [c]) ++ (t ++ [10]) := by simp
      rw [this, List.take_left' (by simp [hfull])]
    · simp only [List.cons_append, fileChunksAux, hc, hfull, or_self, if_false]
      have := ih (cur ++ [c]) (fun x hx => hl x (by simp [hx])) (by simp; omega)
      simpa using this

/-- The first line `fgets` delivers from a file that starts with the
newline-free characters `l` and a newline: `l` and the newline, cut after
255 characters. -/
theorem fileChunks_first (l more : List Nat) (hl : ∀ c ∈ l, c ≠ 10) :
    (fileChunks (l ++ 10 :: more)).head? = some ((l ++ [10]).take 255) := by
  have := fileChunksAux_first more l [] hl (by simp)
  simpa [fileChunks] using this

/-- The decoder on a stored line made of the tag, ten header digits and
hexadecimal pairs: the outcome is fixed by the header and the data pairs. -/
theorem decodeLine_fgets (old : List Nat) (l1 l2 : Nat) (as body term : List Nat)
    (hl1 : isxdigit l1 = true) (hl2 : isxdigit l2 = true) (has : as.length = 8)
    (hasx : ∀ c ∈ as, isxdigit c = true) (hbody : ∀ c ∈ body, isxdigit c = true)
    (heven : body.length % 2 = 0) (hterm : term = [] ∨ term = [10] ∨ term = [13, 10]) :
    decodeLine (fgetsStore old (([83, 51, l1, l2] ++ as ++ body ++ term).take 255)) =
      if beValue (as.map hv) < 2 ^ 31 ∧ 5 ≤ 16 * hv l1 + hv l2 ∧ 16 * hv l1 + hv l2 ≤ 69 then
        if 2 * (16 * hv l1 + hv l2 - 5) ≤ body.length then
          LineResult.record (beValue (as.map hv) : Nat)
            (pairValues (body.take (2 * (16 * hv l1 + hv l2 - 5))))
        else LineResult.skipData (beValue (as.map hv) : Nat)
      else LineResult.skipRange := by
  have htl : term.length ≤ 2 := by
    rcases hterm with h | h | h <;> simp [h]
  by_cases hlen : ([83, 51, l1, l2] ++ as ++ body ++ term).length ≤ 255
  · rw [List.take_of_length_le hlen]
    have hbuf : fgetsStore old ([83, 51, l1, l2] ++ as ++ body ++ term) =
        [83, 51, l1, l2] ++ as ++ body ++
          (term ++ 0 :: old.drop (([83, 51, l1, l2] ++ as ++ body ++ term).length + 1)) := by
      simp [fgetsStore]
    rw [hbuf]
    apply decodeLine_hex l1 l2 as body _ hl1 hl2 has hasx hbody heven
    right
    rcases hterm with h | h | h <;> subst h
    · exact ⟨_, Or.inl rfl⟩
    · exact ⟨_, Or.inr (Or.inl rfl)⟩
    · exact ⟨_, Or.inr (Or.inr rfl)⟩
  · have hbl : 242 ≤ body.length := by
      simp only [List.length_append, List.length_cons, List.length_nil, has] at hlen
      omega
    have hsplit : ([83, 51, l1, l2] ++ as ++ body ++ term).take 255 =
        [83, 51, l1, l2] ++ as ++ body.take 128 ++ ((body ++ term).take 243).drop 128 := by
      have h1 : ([83, 51, l1, l2] ++ as ++ body ++ term) =
          ([83, 51, l1, l2] ++ as) ++ (body ++ term) := by simp
      have h2 : ([83, 51, l1, l2] ++ as).length = 12 := by simp [has]
      rw [h1, List.take_append_eq_append_take, h2,
        List.take_of_length_le (by rw [h2]; omega)]
      have h3 : (body ++ term).take 243 =
          body.take 128 ++ ((body ++ term).take 243).drop 128 := by
        have h4 := (List.take_append_drop 128 ((body ++ term).take 243)).symm
        have h5 : ((body ++ term).take 243).take 128 = body.take 128 := by
          rw [List.take_take]
          exact List.take_append_of_le_length (by omega)
        rw [h5] at h4
        exact h4
      have h6 : 255 - 12 = 243 := rfl
      rw [h6]
      conv_lhs => rw [h3]
      simp
    have hbuf : fgetsStore old (([83, 51, l1, l2] ++ as ++ body ++ term).take 255) =
        [83, 51, l1, l2] ++ as ++ body.take 128 ++
          (((body ++ term).take 243).drop 128 ++ 0 ::
            old.drop ((([83, 51, l1, l2] ++ as ++ body ++ term).take 255).length + 1)) := by
      unfold fgetsStore
      rw [hsplit]
      simp
    have hl128 : (body.take 128).length = 128 := by
      rw [List.length_take]; omega
    rw [hbuf, decodeLine_hex l1 l2 as (body.take 128) _ hl1 hl2 has hasx
      (fun c hc => hbody c (List.mem_of_mem_take hc)) (by rw [hl128])
      (Or.inl (by rw [hl128]))]
    by_cases hc : beValue (as.map hv) < 2 ^ 31 ∧ 5 ≤ 16 * hv l1 + hv l2 ∧ 16 * hv l1 + hv l2 ≤ 69
    · have hn1 : 2 * (16 * hv l1 + hv l2 - 5) ≤ (body.take 128).length := by
        rw [hl128]; omega
      have hn2 : 2 * (16 * hv l1 + hv l2 - 5) ≤ body.length := by omega
      have htt : (body.take 128).take (2 * (16 * hv l1 + hv l2 - 5)) =
          body.take (2 * (16 * hv l1 + hv l2 - 5)) := by
        rw [List.take_take]
        congr 1
        omega
      rw [if_pos hc, if_pos hc, if_pos hn1, if_pos hn2, htt]
    · rw [if_neg hc, if_neg hc]

theorem pairValues_length (n : Nat) : ∀ l : List Nat, l.length = 2 * n →
    (pairValues l).length = n := by
  induction n with
  | zero => intro l h; cases l <;> simp_all [pairValues]
  | succ n ih =>
    intro l h
    match l, h with
    | a :: b :: t, h =>
      simp only [pairValues, List.length_cons]
      rw [ih t (by simp at h; omega)]

theorem pairValues_getD (l : List Nat) : ∀ i, 2 * i + 1 < l.length →
    (pairValues l).getD i 0 = 16 * hv (l.getD (2 * i) 0) + hv (l.getD (2 * i + 1) 0) := by
  induction l using pairValues.induct with
  | case1 a b t ih =>
    intro i hi
    cases i with
    | zero => simp [pairValues]
    | succ j =>
      have h1 : 2 * (j + 1) = 2 * j + 1 + 1 := by ring
      have h2 : 2 * (j + 1) + 1 = (2 * j + 1) + 1 + 1 := by ring
      have := ih j (by simp at hi; omega)
      simp only [pairValues, List.getD_cons_succ, h1, h2]
      exact this
  | case2 l hl =>
    intro i hi
    match l, hl, hi with
    | [], _, hi => simp at hi
    | [a], _, hi => simp at hi
    | a :: b :: t, hl, _ => exact absurd rfl (hl a b t)

theorem getD_take_lt (l : List Nat) (n i : Nat) (h : i < n) :
    (l.take n).getD i 0 = l.getD i 0 := by
  simp [List.getD_eq_getElem?_getD, List.getElem?_take, h]

theorem getD_append_right12 (pre body : List Nat) (k : Nat) (h : pre.length = 12) :
    (pre ++ body).getD (12 + k) 0 = body.getD k 0 := by
  simp [List.getD_eq_getElem?_getD, List.getElem?_append_right, h]

/-- C1: record decoding is sound.  For a line made of the tag `S3`, two
hexadecimal digits `l1 l2`, eight hexadecimal digits `as` and hexadecimal
pairs `body`, ended by nothing, a newline or CR-LF, and stored by `fgets` over
any previous buffer content: if the decoder accepts it, the address is the
big-endian 32-bit value of `as`, the data has exactly `LL - 5` bytes with
`0 ≤ LL - 5 ≤ 64`, data byte `i` is the value of the pair at character offsets
`12 + 2i`, `13 + 2i` of the line, and nothing behind the data pairs is
consulted: every such line with the same header and the same data pairs gives
the same record. -/
theorem record_decoding_sound (old : List Nat) (l1 l2 : Nat) (as body term : List Nat)
    (hl1 : isxdigit l1 = true) (hl2 : isxdigit l2 = true) (has : as.length = 8)
    (hasx : ∀ c ∈ as, isxdigit c = true) (hbody : ∀ c ∈ body, isxdigit c = true)
    (heven : body.length % 2 = 0) (hterm : term = [] ∨ term = [10] ∨ term = [13, 10])
    (recaddr : Int) (data : List Nat)
    (hacc : decodeLine (fgetsStore old (([83, 51, l1, l2] ++ as ++ body ++ term).take 255)) =
      LineResult.record recaddr data) :
    recaddr = ((beValue (as.map hv) : Nat) : Int) ∧ beValue (as.map hv) < 2 ^ 32 ∧
    (data.length : Int) = ((16 * hv l1 + hv l2 : Nat) : Int) - 5 ∧ data.length ≤ 64 ∧
    2 * data.length ≤ body.length ∧
    (∀ i, i < data.length →
      data.getD i 0 = 16 * hv (([83, 51, l1, l2] ++ as ++ body).getD (12 + 2 * i) 0)
        + hv (([83, 51, l1, l2] ++ as ++ body).getD (13 + 2 * i) 0)) ∧
    (∀ old2 body2 term2 : List Nat, (∀ c ∈ body2, isxdigit c = true) →
      body2.length % 2 = 0 → (term2 = [] ∨ term2 = [10] ∨ term2 = [13, 10]) →
      body2.take (2 * data.length) = body.take (2 * data.length) →
      decodeLine (fgetsStore old2 (([83, 51, l1, l2] ++ as ++ body2 ++ term2).take 255)) =
        LineResult.record recaddr data) := by
  rw [decodeLine_fgets old l1 l2 as body term hl1 hl2 has hasx hbody heven hterm] at hacc
  by_cases hc : beValue (as.map hv) < 2 ^ 31 ∧ 5 ≤ 16 * hv l1 + hv l2 ∧ 16 * hv l1 + hv l2 ≤ 69
  · rw [if_pos hc] at hacc
    by_cases hb : 2 * (16 * hv l1 + hv l2 - 5) ≤ body.length
    · rw [if_pos hb] at hacc
      injection hacc with ha hd
      have hlen : data.length = 16 * hv l1 + hv l2 - 5 := by
        rw [← hd]
        exact pairValues_length _ _ (by rw [List.length_take]; omega)
      have hpre : ([83, 51, l1, l2] ++ as).length = 12 := by simp [has]
      refine ⟨ha.symm, by omega, by omega, by omega, by omega, ?_, ?_⟩
      · intro i hi
        have h13 : 13 + 2 * i = 12 + (2 * i + 1) := by ring
        rw [h13, getD_append_right12 _ body _ hpre, getD_append_right12 _ body _ hpre, ← hd,
          pairValues_getD _ i (by rw [List.length_take]; omega),
          getD_take_lt _ _ _ (by omega), getD_take_lt _ _ _ (by omega)]
      · intro old2 body2 term2 hbody2 heven2 hterm2 htake
        rw [decodeLine_fgets old2 l1 l2 as body2 term2 hl1 hl2 has hasx hbody2 heven2 hterm2,
          if_pos hc]
        rw [hlen] at htake
        have hb2 : 2 * (16 * hv l1 + hv l2 - 5) ≤ body2.length := by
          have h1 : (body2.take (2 * (16 * hv l1 + hv l2 - 5))).length =
              (body.take (2 * (16 * hv l1 + hv l2 - 5))).length := by rw [htake]
          rw [List.length_take, List.length_take] at h1
          omega
        rw [if_pos hb2, htake, ha, hd]
    · rw [if_neg hb] at hacc
      exact absurd hacc (by simp)
  · rw [if_neg hc] at hacc
    exact absurd hacc (by simp)

/-- C1, the example of the specification: the line `S30900002000DEADBEEF6A`
decodes to address 0x2000 and data DE AD BE EF, as the theorem says. -/
theorem record_decoding_sound_witness :
    decodeLine (fgetsStore (List.replicate 256 0)
      (([83, 51, 48, 57] ++ [48, 48, 48, 48, 50, 48, 48, 48]
        ++ [68, 69, 65, 68, 66, 69, 69, 70, 54, 65] ++ [10]).take 255)) =
      LineResult.record 0x2000 [0xDE, 0xAD, 0xBE, 0xEF] ∧
    (0x2000 : Int) = ((beValue ([48, 48, 48, 48, 50, 48, 48, 48].map hv) : Nat) : Int) ∧
    (([0xDE, 0xAD, 0xBE, 0xEF] : List Nat).length : Int) = ((16 * hv 48 + hv 57 : Nat) : Int) - 5 :=
  have h := record_decoding_sound (List.replicate 256 0) 48 57 [48, 48, 48, 48, 50, 48, 48, 48]
    [68, 69, 65, 68, 66, 69, 69, 70, 54, 65] [10] (by decide) (by decide) (by decide)
    (by decide) (by decide) (by decide) (by decide) 0x2000 [0xDE, 0xAD, 0xBE, 0xEF] (by decide)
  ⟨by decide, h.1, h.2.2.1⟩

/-- C2 on the code: the line `S30980000000DEADBEEF6A`, whose address field is
0x80000000, is skipped by the range test of line 134, while the same line with
address 0x7FFFFFFF is accepted. -/
theorem high_address_line_skipped :
    decodeLine (fgetsStore (List.replicate 256 0)
      [83, 51, 48, 57, 56, 48, 48, 48, 48, 48, 48, 48, 68, 69, 65, 68, 66, 69, 69, 70, 54, 65, 10])
      = LineResult.skipRange ∧
    decodeLine (fgetsStore (List.replicate 256 0)
      [83, 51, 48, 57, 55, 70, 70, 70, 70, 70, 70, 70, 68, 69, 65, 68, 66, 69, 69, 70, 54, 65, 10])
      = LineResult.record 0x7FFFFFFF [0xDE, 0xAD, 0xBE, 0xEF] := by
  constructor <;> decide

/-- The range test of line 134 on well-formed lines: a line whose eight
address digits have a value of 0x80000000 or more is skipped, whatever its
length field and data are. -/
theorem decodeLine_high_address (old : List Nat) (l1 l2 : Nat) (as body term : List Nat)
    (hl1 : isxdigit l1 = true) (hl2 : isxdigit l2 = true) (has : as.length = 8)
    (hasx : ∀ c ∈ as, isxdigit c = true) (hbody : ∀ c ∈ body, isxdigit c = true)
    (heven : body.length % 2 = 0) (hterm : term = [] ∨ term = [10] ∨ term = [13, 10])
    (hhigh : 2 ^ 31 ≤ beValue (as.map hv)) :
    decodeLine (fgetsStore old (([83, 51, l1, l2] ++ as ++ body ++ term).take 255)) =
      LineResult.skipRange := by
  rw [decodeLine_fgets old l1 l2 as body term hl1 hl2 has hasx hbody heven hterm]
  rw [if_neg (fun h => absurd h.1 (by omega))]

/-- Well-formed lines that are accepted: an address below 0x80000000, a
length field from 5 to 69 and at least `LL - 5` data pairs give a record. -/
theorem decodeLine_accepts (old : List Nat) (l1 l2 : Nat) (as body term : List Nat)
    (hl1 : isxdigit l1 = true) (hl2 : isxdigit l2 = true) (has : as.length = 8)
    (hasx : ∀ c ∈ as, isxdigit c = true) (hbody : ∀ c ∈ body, isxdigit c = true)
    (heven : body.length % 2 = 0) (hterm : term = [] ∨ term = [10] ∨ term = [13, 10])
    (hlow : beValue (as.map hv) < 2 ^ 31) (h5 : 5 ≤ 16 * hv l1 + hv l2)
    (h69 : 16 * hv l1 + hv l2 ≤ 69) (hdata : 2 * (16 * hv l1 + hv l2 - 5) ≤ body.length) :
    decodeLine (fgetsStore old (([83, 51, l1, l2] ++ as ++ body ++ term).take 255)) =
      LineResult.record (beValue (as.map hv) : Nat)
        (pairValues (body.take (2 * (16 * hv l1 + hv l2 - 5)))) := by
  rw [decodeLine_fgets old l1 l2 as body term hl1 hl2 has hasx hbody heven hterm]
  rw [if_pos (And.intro hlow (And.intro h5 h69)), if_pos hdata]

/-! ### Traces of the port functions -/

theorem writesOf_append (a b : List Event) : writesOf (a ++ b) = writesOf a ++ writesOf b := by
  simp [writesOf, List.filterMap_append]

theorem exchangesOf_append (a b : List Event) :
    exchangesOf (a ++ b) = exchangesOf a ++ exchangesOf b := by
  simp [exchangesOf, List.filterMap_append]

theorem inputOnly_nil : InputOnly [] := by
  intro e he; simp at he

theorem inputOnly_append {a b : List Event} (ha : InputOnly a) (hb : InputOnly b) :
    InputOnly (a ++ b) := by
  intro e he
  rcases List.mem_append.1 he with h | h
  · exact ha e h
  · exact hb e h

theorem inputOnly_poll (t r : Int) : InputOnly [Event.poll t r] := by
  intro e he
  simp at he
  exact Or.inl ⟨t, r, he⟩

theorem inputOnly_read (n : Nat) (r : Int) (b : List Nat) : InputOnly [Event.read n r b] := by
  intro e he
  simp at he
  exact Or.inr ⟨n, r, b, he⟩

theorem inputOnly_writesOf {evs : List Event} (h : InputOnly evs) : writesOf evs = [] := by
  induction evs with
  | nil => rfl
  | cons e t ih =>
    have ht : InputOnly t := fun x hx => h x (by simp [hx])
    rcases h e (by simp) with ⟨a, b, rfl⟩ | ⟨a, b, c, rfl⟩ <;>
      simpa [writesOf] using ih ht

theorem inputOnly_exchangesOf {evs : List Event} (h : InputOnly evs) : exchangesOf evs = [] := by
  induction evs with
  | nil => rfl
  | cons e t ih =>
    have ht : InputOnly t := fun x hx => h x (by simp [hx])
    rcases h e (by simp) with ⟨a, b, rfl⟩ | ⟨a, b, c, rfl⟩ <;>
      simpa [exchangesOf] using ih ht

theorem sysRead_log {σ : Type} (T : Transport σ) (w : World σ) (n : Nat) :
    (sysRead T w n).world.log =
      w.log ++ [Event.read n (sysRead T w n).ret (sysRead T w n).bytes] := by
  unfold sysRead
  rcases h : T.read w.st n with ⟨_ | bs, s⟩ <;> simp

theorem readOne_log {σ : Type} (T : Transport σ) (w : World σ) :
    ∃ evs, (readOne T w).2.log = w.log ++ evs ∧ InputOnly evs := by
  refine ⟨[Event.read 1 (sysRead T w 1).ret (sysRead T w 1).bytes], ?_, inputOnly_read _ _ _⟩
  unfold readOne
  split_ifs <;> exact sysRead_log T w 1

theorem receive_byte_log {σ : Type} (T : Transport σ) (w : World σ) (timeout : Int) :
    ∃ evs, (receive_byte T w timeout).2.log = w.log ++ evs ∧ InputOnly evs := by
  unfold receive_byte
  split_ifs with h1 h2 h3
  · exact ⟨[Event.poll timeout (T.poll w.st timeout).1], rfl, inputOnly_poll _ _⟩
  · exact ⟨[Event.poll timeout (T.poll w.st timeout).1], rfl, inputOnly_poll _ _⟩
  · obtain ⟨evs, he, hi⟩ := readOne_log T (wait_input T w timeout).2
    refine ⟨[Event.poll timeout (T.poll w.st timeout).1] ++ evs, ?_,
      inputOnly_append (inputOnly_poll _ _) hi⟩
    rw [he]
    simp [wait_input]
  · exact readOne_log T w

theorem receive_byte_range {σ : Type} (T : Transport σ) (w : World σ) (timeout : Int) :
    (receive_byte T w timeout).1 = -1 ∨ (receive_byte T w timeout).1 = -2 ∨
      0 ≤ (receive_byte T w timeout).1 := by
  have hr : ∀ w' : World σ, (readOne T w').1 = -1 ∨ 0 ≤ (readOne T w').1 := by
    intro w'
    unfold readOne
    split_ifs
    · left; rfl
    · right; exact Int.ofNat_nonneg _
  unfold receive_byte
  split_ifs
  · left; rfl
  · right; left; rfl
  · rcases hr (wait_input T w timeout).2 with h | h
    · left; exact h
    · right; right; exact h
  · rcases hr w with h | h
    · left; exact h
    · right; right; exact h

theorem transmit_fail {σ : Type} (T : Transport σ) (w : World σ) (data : List Nat)
    (timeout : Int) (h : (T.write w.st data).1 ≠ (data.length : Int)) :
    (transmit_multi_c T w data timeout).1 = -1 ∧
    (transmit_multi_c T w data timeout).2.log =
      w.log ++ [Event.write data (T.write w.st data).1, Event.exchange data timeout (-1)] := by
  unfold transmit_multi_c
  have h' : (sysWrite T w data).1 ≠ (data.length : Int) := h
  rw [if_pos h']
  simp [exchanged, sysWrite]

theorem transmit_ok {σ : Type} (T : Transport σ) (w : World σ) (data : List Nat)
    (timeout : Int) (h : (T.write w.st data).1 = (data.length : Int)) :
    ∃ r2 ins, InputOnly ins ∧
      (transmit_multi_c T w data timeout).2.log =
        w.log ++ [Event.write data (data.length : Int), Event.write [checksum data] r2] ++ ins
          ++ [Event.exchange data timeout (transmit_multi_c T w data timeout).1] := by
  have h' : ¬ (sysWrite T w data).1 ≠ (data.length : Int) := not_not.2 h
  obtain ⟨ins, hlog, hin⟩ := receive_byte_log T
    (sysWrite T (sysWrite T w data).2 [checksum data]).2 timeout
  refine ⟨(T.write (T.write w.st data).2 [checksum data]).1, ins, hin, ?_⟩
  unfold transmit_multi_c
  rw [if_neg h']
  simp only []
  split_ifs <;> simp only [exchanged, hlog] <;> simp [sysWrite, h]

theorem transmit_range {σ : Type} (T : Transport σ) (w : World σ) (data : List Nat)
    (timeout : Int) :
    (transmit_multi_c T w data timeout).1 = 0 ∨ (transmit_multi_c T w data timeout).1 = -1 ∨
    (transmit_multi_c T w data timeout).1 = -2 ∨ (transmit_multi_c T w data timeout).1 = -3 := by
  unfold transmit_multi_c
  simp only []
  split_ifs <;> simp [exchanged]

theorem xor_foldl_zero (a : Nat) (t : List Nat) :
    (a :: t).foldl (fun c d => c ^^^ d) 0 = t.foldl (fun c d => c ^^^ d) a := by
  simp

/-- C3: the byte `transmit_multi_c` sends after the payload is the checksum:
when the payload write is complete, the writes of the call are the payload and
then the single byte `checksum data`, which is `0xFF - b` for a one-byte
payload `[b]` and the XOR-fold of all payload bytes for two or more bytes. -/
theorem checksum_sent {σ : Type} (T : Transport σ) (w : World σ) (data : List Nat)
    (timeout : Int) (hw : (T.write w.st data).1 = (data.length : Int)) :
    writesOf (transmit_multi_c T w data timeout).2.log =
      writesOf w.log ++ [data, [checksum data]] ∧
    (∀ b, b < 256 → data = [b] → checksum data + b = 0xFF ∧ checksum data = 0xFF - b) ∧
    (2 ≤ data.length → checksum data = data.foldl (fun c d => c ^^^ d) 0) := by
  refine ⟨?_, ?_, ?_⟩
  · obtain ⟨r2, ins, hin, hlog⟩ := transmit_ok T w data timeout hw
    rw [hlog]
    simp only [writesOf_append, (inputOnly_writesOf hin)]
    simp [writesOf]
  · intro b hb hd
    subst hd
    have hc : checksum [b] = 0xff - b := by simp [checksum]
    rw [hc]
    omega
  · intro h2
    match data, h2 with
    | a :: b :: t, _ =>
      simp [checksum]

/-- C3 on the concrete target `ackTarget`: the Memory-Write command 0x31 is
followed by 0xCE, a four-byte address by the XOR of its bytes. -/
theorem checksum_sent_witness :
    writesOf (transmit_multi_c ackTarget ⟨(), []⟩ [0, 0, 0x20, 0] 100).2.log =
      [[0, 0, 0x20, 0], [0x20]] ∧
    checksum [0x31] = 0xCE ∧ checksum [0, 0, 0x20, 0] = 0x20 :=
  have h := checksum_sent ackTarget ⟨(), []⟩ [0, 0, 0x20, 0] 100 (by decide)
  ⟨h.1, by decide, by decide⟩

theorem sysRead_one {σ : Type} (T : Transport σ) (w : World σ) (h : (sysRead T w 1).ret = 1) :
    ∃ b, (sysRead T w 1).bytes = [b] ∧ b < 256 := by
  unfold sysRead at h ⊢
  rcases hr : T.read w.st 1 with ⟨_ | bs, s⟩
  · rw [hr] at h; simp at h
  · rw [hr] at h
    simp only at h ⊢
    match bs, h with
    | [], h => simp at h
    | b :: t, _ =>
      refine ⟨b % 256, by simp, Nat.mod_lt _ (by norm_num)⟩

/-- C4: the outcome of one exchange.  A short payload write gives -1 and the
call does nothing more (its trace is that one write).  After a complete
payload write the checksum write follows, and whatever it returns: a failed
wait gives -1, a wait that times out -2, a read that does not deliver one byte
-1, the reply byte 0x79 gives 0 and every other reply byte -3.  (The wait is
left out when `timeout` is 0.)  The result is always one of 0, -1, -2, -3. -/
theorem exchange_outcome {σ : Type} (T : Transport σ) (w : World σ) (data : List Nat)
    (timeout : Int) :
    ((T.write w.st data).1 ≠ (data.length : Int) →
      (transmit_multi_c T w data timeout).1 = -1 ∧
      (transmit_multi_c T w data timeout).2.log =
        w.log ++ [Event.write data (T.write w.st data).1, Event.exchange data timeout (-1)]) ∧
    ((T.write w.st data).1 = (data.length : Int) →
      ∀ wc : World σ, wc = (sysWrite T (sysWrite T w data).2 [checksum data]).2 →
      ∀ wp : Int × World σ, wp = (if timeout ≠ 0 then wait_input T wc timeout else (1, wc)) →
        (wp.1 = -1 → (transmit_multi_c T w data timeout).1 = -1) ∧
        (wp.1 = 0 → (transmit_multi_c T w data timeout).1 = -2) ∧
        (wp.1 ≠ -1 → wp.1 ≠ 0 →
          ((sysRead T wp.2 1).ret ≠ 1 → (transmit_multi_c T w data timeout).1 = -1) ∧
          ((sysRead T wp.2 1).ret = 1 → ∃ b, (sysRead T wp.2 1).bytes = [b] ∧ b < 256 ∧
            ((transmit_multi_c T w data timeout).1 = 0 ↔ b = 0x79) ∧
            (b ≠ 0x79 → (transmit_multi_c T w data timeout).1 = -3)))) ∧
    ((transmit_multi_c T w data timeout).1 = 0 ∨ (transmit_multi_c T w data timeout).1 = -1 ∨
      (transmit_multi_c T w data timeout).1 = -2 ∨ (transmit_multi_c T w data timeout).1 = -3) := by
  refine ⟨transmit_fail T w data timeout, ?_, transmit_range T w data timeout⟩
  intro hw wc hwc wp hwp
  have h' : ¬ (sysWrite T w data).1 ≠ (data.length : Int) := not_not.2 hw
  have hres : (transmit_multi_c T w data timeout).1 =
      if (receive_byte T wc timeout).1 = -1 then -1
      else if (receive_byte T wc timeout).1 = -2 then -2
      else if (receive_byte T wc timeout).1 ≠ 121 then -3 else 0 := by
    unfold transmit_multi_c
    rw [if_neg h', ← hwc]
    simp only []
    split_ifs <;> rfl
  have hrb : (receive_byte T wc timeout).1 =
      if wp.1 = -1 then -1 else if wp.1 = 0 then -2 else (readOne T wp.2).1 := by
    unfold receive_byte
    by_cases ht : timeout ≠ 0
    · rw [if_pos ht] at hwp ⊢
      rw [hwp]
      split_ifs <;> rfl
    · rw [if_neg ht] at hwp ⊢
      rw [hwp]
      simp
  refine ⟨?_, ?_, ?_⟩
  · intro h1
    rw [hres, hrb, if_pos h1]
    simp
  · intro h0
    have h1 : ¬ wp.1 = -1 := by omega
    rw [hres, hrb, if_neg h1, if_pos h0]
    simp
  · intro h1 h0
    rw [hres, hrb, if_neg h1, if_neg h0]
    constructor
    · intro hr
      unfold readOne
      rw [if_pos hr]
      simp
    · intro hr
      obtain ⟨b, hb, hlt⟩ := sysRead_one T wp.2 hr
      refine ⟨b, hb, hlt, ?_⟩
      have hro : (readOne T wp.2).1 = (b : Int) := by
        unfold readOne
        rw [if_neg (not_not.2 hr), hb]
        simp
      rw [hro]
      have hb1 : ¬ ((b : Int) = -1) := by omega
      have hb2 : ¬ ((b : Int) = -2) := by omega
      rw [if_neg hb1, if_neg hb2]
      constructor
      · constructor
        · intro h
          by_contra hne
          have : ((b : Int) ≠ 121) := by omega
          rw [if_pos this] at h
          omega
        · intro h
          subst h
          simp
      · intro hne
        have : ((b : Int) ≠ 121) := by omega
        rw [if_pos this]

/-! ### Autobaud on scripted targets -/

theorem receive_byte_scripted_noack (r : Reply) (rest : List Reply) (log : List Event)
    (h : isAck r = false) :
    ∃ evs, InputOnly evs ∧ (receive_byte scripted ⟨r :: rest, log⟩ 100).2 = ⟨rest, log ++ evs⟩ ∧
      (receive_byte scripted ⟨r :: rest, log⟩ 100).1 ≠ 121 := by
  cases r with
  | timeout =>
    exact ⟨[Event.poll 100 0], inputOnly_poll _ _, by simp [receive_byte, wait_input, scripted],
      by simp [receive_byte, wait_input, scripted]⟩
  | pollError =>
    exact ⟨[Event.poll 100 (-1)], inputOnly_poll _ _,
      by simp [receive_byte, wait_input, scripted], by simp [receive_byte, wait_input, scripted]⟩
  | readError =>
    refine ⟨[Event.poll 100 1] ++ [Event.read 1 (-1) []],
      inputOnly_append (inputOnly_poll _ _) (inputOnly_read _ _ _), ?_, ?_⟩ <;>
      simp [receive_byte, wait_input, scripted, readOne, sysRead]
  | bytes bs =>
    cases bs with
    | nil =>
      refine ⟨[Event.poll 100 1] ++ [Event.read 1 0 []],
        inputOnly_append (inputOnly_poll _ _) (inputOnly_read _ _ _), ?_, ?_⟩ <;>
        simp [receive_byte, wait_input, scripted, readOne, sysRead]
    | cons b t =>
      have hb : b % 256 ≠ 121 := by
        simpa [isAck] using h
      refine ⟨[Event.poll 100 1] ++ [Event.read 1 1 [b % 256]],
        inputOnly_append (inputOnly_poll _ _) (inputOnly_read _ _ _), ?_, ?_⟩
      · simp [receive_byte, wait_input, scripted, readOne, sysRead]
      · simp [receive_byte, wait_input, scripted, readOne, sysRead]
        omega

theorem receive_byte_scripted_ack (r : Reply) (rest : List Reply) (log : List Event)
    (h : isAck r = true) :
    ∃ evs, InputOnly evs ∧ (receive_byte scripted ⟨r :: rest, log⟩ 100).2 = ⟨rest, log ++ evs⟩ ∧
      (receive_byte scripted ⟨r :: rest, log⟩ 100).1 = 121 := by
  match r, h with
  | Reply.bytes (b :: t), h =>
    have hb : b % 256 = 121 := by
      simpa [isAck] using h
    refine ⟨[Event.poll 100 1] ++ [Event.read 1 1 [b % 256]],
      inputOnly_append (inputOnly_poll _ _) (inputOnly_read _ _ _), ?_, ?_⟩
    · simp [receive_byte, wait_input, scripted, readOne, sysRead]
    · simp [receive_byte, wait_input, scripted, readOne, sysRead]
      omega

theorem receive_byte_scripted_empty (log : List Event) :
    (receive_byte scripted ⟨[], log⟩ 100) = (-2, ⟨[], log ++ [Event.poll 100 0]⟩) := by
  simp [receive_byte, wait_input, scripted]

theorem writesOf_sync (log evs : List Event) (h : InputOnly evs) :
    writesOf (log ++ [Event.write [0x7f] 1] ++ evs) = writesOf log ++ [[0x7f]] := by
  rw [writesOf_append, writesOf_append, (inputOnly_writesOf h)]
  simp [writesOf]

theorem exchangesOf_sync (log evs : List Event) (h : InputOnly evs) :
    exchangesOf (log ++ [Event.write [0x7f] 1] ++ evs) = exchangesOf log := by
  rw [exchangesOf_append, exchangesOf_append, (inputOnly_exchangesOf h)]
  simp [exchangesOf]

theorem autobaud_scripted_ack (post : List Reply) (a : Reply) (ha : isAck a = true) :
    ∀ (pre : List Reply) (n : Nat) (log : List Event), pre.length < n →
      (∀ r ∈ pre, isAck r = false) →
      ∃ log', autobaudLoop scripted n ⟨pre ++ a :: post, log⟩ = (Sync.ok, ⟨post, log'⟩) ∧
        writesOf log' = writesOf log ++ List.replicate (pre.length + 1) [0x7f] ∧
        exchangesOf log' = exchangesOf log := by
  intro pre
  induction pre with
  | nil =>
    intro n log hn _
    obtain ⟨m, rfl⟩ : ∃ m, n = m + 1 := ⟨n - 1, by omega⟩
    obtain ⟨evs, hin, hw, hr⟩ :=
      receive_byte_scripted_ack a post (log ++ [Event.write [0x7f] 1]) ha
    refine ⟨log ++ [Event.write [0x7f] 1] ++ evs, ?_, ?_, exchangesOf_sync log evs hin⟩
    · have hs : sysWrite scripted ⟨a :: post, log⟩ [0x7f] =
          (1, ⟨a :: post, log ++ [Event.write [0x7f] 1]⟩) := by
        simp [sysWrite, scripted]
      simp only [autobaudLoop, List.nil_append, hs, hr, hw]
      simp
    · rw [writesOf_sync log evs hin]
      simp
  | cons r pre ih =>
    intro n log hn hno
    obtain ⟨m, rfl⟩ : ∃ m, n = m + 1 := ⟨n - 1, by omega⟩
    obtain ⟨evs, hin, hw, hr⟩ := receive_byte_scripted_noack r (pre ++ a :: post)
      (log ++ [Event.write [0x7f] 1]) (hno r (by simp))
    obtain ⟨log', hrun, hwr, hex⟩ := ih m (log ++ [Event.write [0x7f] 1] ++ evs)
      (by simp at hn; omega) (fun x hx => hno x (by simp [hx]))
    refine ⟨log', ?_, ?_, ?_⟩
    · have hs : sysWrite scripted ⟨r :: (pre ++ a :: post), log⟩ [0x7f] =
          (1, ⟨r :: (pre ++ a :: post), log ++ [Event.write [0x7f] 1]⟩) := by
        simp [sysWrite, scripted]
      simp only [autobaudLoop, List.cons_append, hs, hr, hw]
      simpa using hrun
    · rw [hwr, writesOf_sync log evs hin]
      simp [List.replicate_succ]
    · rw [hex, exchangesOf_sync log evs hin]

theorem autobaud_scripted_never :
    ∀ (n : Nat) (s : List Reply) (log : List Event), (∀ r ∈ s, isAck r = false) →
      ∃ s' log', autobaudLoop scripted n ⟨s, log⟩ = (Sync.exhausted, ⟨s', log'⟩) ∧
        writesOf log' = writesOf log ++ List.replicate n [0x7f] ∧
        exchangesOf log' = exchangesOf log := by
  intro n
  induction n with
  | zero =>
    intro s log _
    exact ⟨s, log, by simp [autobaudLoop], by simp, rfl⟩
  | succ m ih =>
    intro s log hno
    cases s with
    | nil =>
      obtain ⟨s', log', hrun, hwr, hex⟩ :=
        ih [] (log ++ [Event.write [0x7f] 1] ++ [Event.poll 100 0]) (by simp)
      refine ⟨s', log', ?_, ?_, ?_⟩
      · have hs : sysWrite scripted ⟨[], log⟩ [0x7f] =
            (1, ⟨[], log ++ [Event.write [0x7f] 1]⟩) := by
          simp [sysWrite, scripted]
        simp only [autobaudLoop, hs, receive_byte_scripted_empty]
        simpa using hrun
      · rw [hwr, writesOf_sync log _ (inputOnly_poll _ _)]
        simp [List.replicate_succ]
      · rw [hex, exchangesOf_sync log _ (inputOnly_poll _ _)]
    | cons r rest =>
      obtain ⟨evs, hin, hw, hr⟩ := receive_byte_scripted_noack r rest
        (log ++ [Event.write [0x7f] 1]) (hno r (by simp))
      obtain ⟨s', log', hrun, hwr, hex⟩ := ih rest (log ++ [Event.write [0x7f] 1] ++ evs)
        (fun x hx => hno x (by simp [hx]))
      refine ⟨s', log', ?_, ?_, ?_⟩
      · have hs : sysWrite scripted ⟨r :: rest, log⟩ [0x7f] =
            (1, ⟨r :: rest, log ++ [Event.write [0x7f] 1]⟩) := by
          simp [sysWrite, scripted]
        simp only [autobaudLoop, hs, hr, hw]
        simpa using hrun
      · rw [hwr, writesOf_sync log evs hin]
        simp [List.replicate_succ]
      · rw [hex, exchangesOf_sync log evs hin]

/-- C5: autobaud attempt counting on scripted targets.  If the first `k - 1`
attempts get no ACK (timeout, wait error, read error or a byte other than
0x79) and attempt `k ≤ 50` is answered with 0x79, the autobaud loop succeeds
and has written the byte 0x7F exactly `k` times.  Against a target that never
answers 0x79 the loop gives up after exactly 50 writes of 0x7F, the session
returns 2, and no command exchange was issued (nothing but the 50 sync bytes
was written). -/
theorem autobaud_attempts (k : Nat) (pre post never : List Reply) (buffer0 : List Nat)
    (image : Image) (hk1 : 1 ≤ k) (hk : k ≤ 50) (hpre : pre.length + 1 = k)
    (hno : ∀ r ∈ pre, isAck r = false) (hnever : ∀ r ∈ never, isAck r = false) :
    ((autobaudLoop scripted 50 ⟨pre ++ Reply.bytes [0x79] :: post, []⟩).1 = Sync.ok ∧
      writesOf (autobaudLoop scripted 50 ⟨pre ++ Reply.bytes [0x79] :: post, []⟩).2.log =
        List.replicate k [0x7f]) ∧
    ((autobaudLoop scripted 50 ⟨never, []⟩).1 = Sync.exhausted ∧
      (main scripted never buffer0 image).1 = 2 ∧
      writesOf (main scripted never buffer0 image).2.log = List.replicate 50 [0x7f] ∧
      exchangesOf (main scripted never buffer0 image).2.log = []) := by
  constructor
  · obtain ⟨log', hrun, hwr, _⟩ := autobaud_scripted_ack post (Reply.bytes [0x79]) (by decide)
      pre 50 [] (by omega) hno
    rw [hrun]
    refine ⟨rfl, ?_⟩
    rw [hwr, hpre]
    simp [writesOf]
  · obtain ⟨s', log', hrun, hwr, hex⟩ := autobaud_scripted_never 50 never [] hnever
    have hm : main scripted never buffer0 image = (2, ⟨s', log'⟩) := by
      unfold main
      rw [hrun]
    rw [hm, hrun]
    refine ⟨rfl, rfl, ?_, ?_⟩
    · rw [hwr]; simp [writesOf]
    · rw [hex]; simp [exchangesOf]

/-- C5 for `k = 3`: a timeout, a wrong byte, then 0x79 give three sync writes;
a target that only ever sends 0x1F gets fifty. -/
theorem autobaud_attempts_witness :
    writesOf (autobaudLoop scripted 50
      ⟨[Reply.timeout, Reply.bytes [0x1F]] ++ Reply.bytes [0x79] :: [], []⟩).2.log =
        List.replicate 3 [0x7f] ∧
    (main scripted (List.replicate 60 (Reply.bytes [0x1F])) [] Image.omitted).1 = 2 :=
  have h := autobaud_attempts 3 [Reply.timeout, Reply.bytes [0x1F]] []
    (List.replicate 60 (Reply.bytes [0x1F])) [] Image.omitted (by decide) (by decide)
    (by decide) (by decide) (by decide)
  ⟨h.1.2, h.2.2.1⟩

/-! ### Sessions with a target that acknowledges -/

theorem ackTarget_acks : Acks ackTarget where
  write_all := fun _ _ => rfl
  ready := fun _ _ => ⟨by simp [ackTarget], by simp [ackTarget]⟩
  ack := fun _ => ⟨[], rfl⟩
  answer := fun _ _ => ⟨0x79, [], rfl⟩

theorem receive_byte_acks {σ : Type} (T : Transport σ) (hT : Acks T) (w : World σ)
    (timeout : Int) : (receive_byte T w timeout).1 = 121 := by
  have hro : ∀ w' : World σ, (readOne T w').1 = 121 := by
    intro w'
    obtain ⟨tl, htl⟩ := hT.ack w'.st
    unfold readOne sysRead
    rcases hr : T.read w'.st 1 with ⟨o, s⟩
    rw [hr] at htl
    simp only at htl
    subst htl
    simp
  unfold receive_byte
  have h1 := (hT.ready w.st timeout).1
  have h2 := (hT.ready w.st timeout).2
  split_ifs with a b c
  · exact absurd b h1
  · exact absurd c h2
  · exact hro _
  · exact hro _

theorem transmit_acks {σ : Type} (T : Transport σ) (hT : Acks T) (w : World σ)
    (data : List Nat) (timeout : Int) :
    (transmit_multi_c T w data timeout).1 = 0 ∧
    exchangesOf (transmit_multi_c T w data timeout).2.log =
      exchangesOf w.log ++ [(data, timeout, 0)] ∧
    writesOf (transmit_multi_c T w data timeout).2.log =
      writesOf w.log ++ [data, [checksum data]] := by
  have hw := hT.write_all w.st data
  have hres : (transmit_multi_c T w data timeout).1 = 0 := by
    have h' : ¬ (sysWrite T w data).1 ≠ (data.length : Int) := not_not.2 hw
    unfold transmit_multi_c
    rw [if_neg h']
    simp only [receive_byte_acks T hT]
    simp [exchanged]
  obtain ⟨r2, ins, hin, hlog⟩ := transmit_ok T w data timeout hw
  refine ⟨hres, ?_, ?_⟩
  · rw [hlog, hres]
    simp only [exchangesOf_append, (inputOnly_exchangesOf hin)]
    simp [exchangesOf]
  · rw [hlog]
    simp only [writesOf_append, (inputOnly_writesOf hin)]
    simp [writesOf]

theorem receive_multi_loop_succ {σ : Type} (T : Transport σ) (len : Nat) (timeout : Int)
    (fuel : Nat) (w w1 : World σ) (data : List Nat) (r : Nat)
    (hw1 : w1 = if timeout ≠ 0 then (wait_input T w timeout).2 else w) :
    receive_multi_loop T len timeout (fuel + 1) w data r =
      if r < len then
        if timeout ≠ 0 ∧ (wait_input T w timeout).1 = -1 then (-1, data, w1)
        else if timeout ≠ 0 ∧ (wait_input T w timeout).1 = 0 then (-2, data, w1)
        else if (sysRead T w1 len).ret < 1 then (-1, data, (sysRead T w1 len).world)
        else
          receive_multi_loop T len timeout fuel (sysRead T w1 len).world
            (data.take r ++ (sysRead T w1 len).bytes
              ++ data.drop (r + (sysRead T w1 len).bytes.length))
            (r + (sysRead T w1 len).bytes.length)
      else (0, data, w) := by
  subst hw1
  rfl

theorem receive_multi_loop_log {σ : Type} (T : Transport σ) (len : Nat) (timeout : Int) :
    ∀ (fuel : Nat) (w : World σ) (data : List Nat) (r : Nat),
      ∃ evs, InputOnly evs ∧
        (receive_multi_loop T len timeout fuel w data r).2.2.log = w.log ++ evs := by
  intro fuel
  induction fuel with
  | zero => intro w data r; exact ⟨[], inputOnly_nil, by simp [receive_multi_loop]⟩
  | succ n ih =>
    intro w data r
    obtain ⟨w1, hw1⟩ : ∃ w1 : World σ,
        w1 = if timeout ≠ 0 then (wait_input T w timeout).2 else w := ⟨_, rfl⟩
    have hl : ∃ e1, InputOnly e1 ∧ w1.log = w.log ++ e1 := by
      rw [hw1]
      by_cases ht : timeout ≠ 0
      · rw [if_pos ht]
        exact ⟨[Event.poll timeout (T.poll w.st timeout).1], inputOnly_poll _ _, rfl⟩
      · rw [if_neg ht]
        exact ⟨[], inputOnly_nil, by simp⟩
    obtain ⟨e1, hi1, hl1⟩ := hl
    rw [receive_multi_loop_succ T len timeout n w w1 data r hw1]
    split_ifs with hr h1 h2 h3
    · exact ⟨e1, hi1, hl1⟩
    · exact ⟨e1, hi1, hl1⟩
    · refine ⟨e1 ++ [Event.read len (sysRead T w1 len).ret (sysRead T w1 len).bytes],
        inputOnly_append hi1 (inputOnly_read _ _ _), ?_⟩
      show (sysRead T w1 len).world.log = _
      rw [sysRead_log, hl1, List.append_assoc]
    · obtain ⟨e2, hi2, hl2⟩ := ih (sysRead T w1 len).world
        (data.take r ++ (sysRead T w1 len).bytes
          ++ data.drop (r + (sysRead T w1 len).bytes.length))
        (r + (sysRead T w1 len).bytes.length)
      refine ⟨e1 ++ [Event.read len (sysRead T w1 len).ret (sysRead T w1 len).bytes] ++ e2,
        inputOnly_append (inputOnly_append hi1 (inputOnly_read _ _ _)) hi2, ?_⟩
      rw [hl2, sysRead_log, hl1]
      simp
    · exact ⟨[], inputOnly_nil, by simp⟩

theorem sysRead_acks {σ : Type} (T : Transport σ) (hT : Acks T) (w : World σ) (len : Nat)
    (hlen : 1 ≤ len) :
    1 ≤ (sysRead T w len).ret ∧ 1 ≤ (sysRead T w len).bytes.length := by
  obtain ⟨b, tl, h⟩ := hT.answer w.st len
  unfold sysRead
  rcases hr : T.read w.st len with ⟨o, s⟩
  rw [hr] at h
  simp only at h
  subst h
  obtain ⟨m, rfl⟩ : ∃ m, len = m + 1 := ⟨len - 1, by omega⟩
  simp

theorem receive_multi_loop_acks {σ : Type} (T : Transport σ) (hT : Acks T) (len : Nat)
    (timeout : Int) :
    ∀ (fuel : Nat) (w : World σ) (data : List Nat) (r : Nat), len ≤ r + fuel →
      (receive_multi_loop T len timeout fuel w data r).1 = 0 := by
  intro fuel
  induction fuel with
  | zero => intro w data r _; simp [receive_multi_loop]
  | succ n ih =>
    intro w data r hle
    obtain ⟨w1, hw1⟩ : ∃ w1 : World σ,
        w1 = if timeout ≠ 0 then (wait_input T w timeout).2 else w := ⟨_, rfl⟩
    rw [receive_multi_loop_succ T len timeout n w w1 data r hw1]
    have h1 : (wait_input T w timeout).1 ≠ -1 := (hT.ready w.st timeout).1
    have h2 : (wait_input T w timeout).1 ≠ 0 := (hT.ready w.st timeout).2
    split_ifs with hr ha hb hc
    · exact absurd ha.2 h1
    · exact absurd hb.2 h2
    · have := (sysRead_acks T hT w1 len (by omega)).1
      omega
    · apply ih
      have := (sysRead_acks T hT w1 len (by omega)).2
      omega
    · rfl

theorem autobaud_acks {σ : Type} (T : Transport σ) (hT : Acks T) (n : Nat) (w : World σ) :
    (autobaudLoop T (n + 1) w).1 = Sync.ok ∧
    exchangesOf (autobaudLoop T (n + 1) w).2.log = exchangesOf w.log := by
  have hw : (sysWrite T w [0x7f]).1 = 1 := by
    have := hT.write_all w.st [0x7f]
    simpa [sysWrite] using this
  have hr := receive_byte_acks T hT (sysWrite T w [0x7f]).2 100
  obtain ⟨evs, hlog, hin⟩ := receive_byte_log T (sysWrite T w [0x7f]).2 100
  have hrun : autobaudLoop T (n + 1) w =
      (Sync.ok, (receive_byte T (sysWrite T w [0x7f]).2 100).2) := by
    simp only [autobaudLoop, hw, hr]
    simp
  rw [hrun]
  refine ⟨rfl, ?_⟩
  show exchangesOf (receive_byte T (sysWrite T w [0x7f]).2 100).2.log = _
  rw [hlog, exchangesOf_append, (inputOnly_exchangesOf hin)]
  simp [sysWrite, exchangesOf_append, exchangesOf]

theorem receive_multi_acks {σ : Type} (T : Transport σ) (hT : Acks T) (w : World σ)
    (data : List Nat) (len : Nat) (timeout : Int) :
    (receive_multi T w data len timeout).1 = 0 ∧
    exchangesOf (receive_multi T w data len timeout).2.2.log = exchangesOf w.log := by
  unfold receive_multi
  refine ⟨receive_multi_loop_acks T hT len timeout len w data 0 (by omega), ?_⟩
  obtain ⟨evs, hin, hlog⟩ := receive_multi_loop_log T len timeout len w data 0
  rw [hlog, exchangesOf_append, (inputOnly_exchangesOf hin)]
  simp

theorem identify_acks {σ : Type} (T : Transport σ) (hT : Acks T) (w : World σ)
    (buffer : List Nat) :
    (identify T w buffer).1 = none ∧
    exchangesOf (identify T w buffer).2.2.log =
      exchangesOf w.log ++ [([0x01], 100, 0), ([0x02], 100, 0)] := by
  obtain ⟨t1, x1, _⟩ := transmit_acks T hT w [0x01] 100
  obtain ⟨m1, y1⟩ := receive_multi_acks T hT (transmit_multi_c T w [0x01] 100).2 buffer 4 100
  obtain ⟨t2, x2, _⟩ := transmit_acks T hT
    (receive_multi T (transmit_multi_c T w [0x01] 100).2 buffer 4 100).2.2 [0x02] 100
  obtain ⟨m2, y2⟩ := receive_multi_acks T hT
    (transmit_multi_c T (receive_multi T (transmit_multi_c T w [0x01] 100).2 buffer 4 100).2.2
      [0x02] 100).2
    (receive_multi T (transmit_multi_c T w [0x01] 100).2 buffer 4 100).2.1 4 100
  unfold identify
  simp only [t1, m1, t2, m2, ne_eq, not_true_eq_false, if_false]
  refine ⟨trivial, ?_⟩
  rw [y2, x2, y1, x1]
  simp

theorem recordLoop_acks {σ : Type} (T : Transport σ) (hT : Acks T) :
    ∀ (chunks : List (List Nat)) (buffer : List Nat) (startaddr : Int) (w : World σ),
      (recordLoop T chunks buffer startaddr w).1 = none ∧
      (recordLoop T chunks buffer startaddr w).2.1 =
        startAfter startaddr (lineResults buffer chunks) ∧
      exchangesOf (recordLoop T chunks buffer startaddr w).2.2.log =
        exchangesOf w.log ++ allLineExchanges (lineResults buffer chunks) := by
  intro chunks
  induction chunks with
  | nil =>
    intro buffer startaddr w
    simp [recordLoop, lineResults, startAfter, allLineExchanges]
  | cons chunk rest ih =>
    intro buffer startaddr w
    cases h : decodeLine (fgetsStore buffer chunk) with
    | skipTag =>
      have := ih (fgetsStore buffer chunk) startaddr w
      simpa [recordLoop, lineResults, startAfter, allLineExchanges, lineExchanges, h] using this
    | skipHeader =>
      have := ih (fgetsStore buffer chunk) startaddr w
      simpa [recordLoop, lineResults, startAfter, allLineExchanges, lineExchanges, h] using this
    | skipRange =>
      have := ih (fgetsStore buffer chunk) startaddr w
      simpa [recordLoop, lineResults, startAfter, allLineExchanges, lineExchanges, h] using this
    | skipData a =>
      have := ih (fgetsStore buffer chunk) (setStart startaddr a) w
      simpa [recordLoop, lineResults, startAfter, allLineExchanges, lineExchanges, h] using this
    | record a d =>
      obtain ⟨t1, x1, _⟩ := transmit_acks T hT w [0x31] 100
      obtain ⟨t2, x2, _⟩ := transmit_acks T hT (transmit_multi_c T w [0x31] 100).2
        (addrBytes a) 100
      obtain ⟨t3, x3, _⟩ := transmit_acks T hT
        (transmit_multi_c T (transmit_multi_c T w [0x31] 100).2 (addrBytes a) 100).2
        (recdata d) 500
      have := ih (fgetsStore buffer chunk) (setStart startaddr a)
        (transmit_multi_c T
          (transmit_multi_c T (transmit_multi_c T w [0x31] 100).2 (addrBytes a) 100).2
          (recdata d) 500).2
      rw [x3, x2, x1] at this
      simp only [recordLoop, lineResults, startAfter, allLineExchanges, lineExchanges, h, t1, t2,
        t3, ne_eq, not_true_eq_false, if_false]
      simpa using this

theorem goCommand_acks {σ : Type} (T : Transport σ) (hT : Acks T) (w : World σ)
    (startaddr : Int) :
    (goCommand T w startaddr).1 = 0 ∧
    exchangesOf (goCommand T w startaddr).2.log =
      exchangesOf w.log ++ [([0x21], 100, 0), (addrBytes (entryAddress startaddr), 100, 0)] := by
  obtain ⟨t1, x1, _⟩ := transmit_acks T hT w [0x21] 100
  obtain ⟨t2, x2, _⟩ := transmit_acks T hT (transmit_multi_c T w [0x21] 100).2
    (addrBytes (entryAddress startaddr)) 100
  unfold goCommand
  unfold entryAddress at t2 x2 ⊢
  simp only [t1, t2, ne_eq, not_true_eq_false, if_false]
  refine ⟨trivial, ?_⟩
  rw [x2, x1]
  simp

theorem main_acks {σ : Type} (T : Transport σ) (hT : Acks T) (s0 : σ) (buffer0 : List Nat)
    (bytes : List Nat) :
    (main T s0 buffer0 (Image.file bytes)).1 = 0 ∧
    exchangesOf (main T s0 buffer0 (Image.file bytes)).2.log =
      [([0x01], 100, 0), ([0x02], 100, 0)]
        ++ allLineExchanges (lineResults (identBuffer T s0 buffer0) (fileChunks bytes))
        ++ [([0x21], 100, 0),
          (addrBytes (entryAddress (startAfter (-1)
            (lineResults (identBuffer T s0 buffer0) (fileChunks bytes)))), 100, 0)] := by
  obtain ⟨a1, a2⟩ := autobaud_acks T hT 49 ⟨s0, []⟩
  obtain ⟨i1, i2⟩ := identify_acks T hT (autobaudLoop T 50 ⟨s0, []⟩).2 buffer0
  obtain ⟨l1, l2, l3⟩ := recordLoop_acks T hT (fileChunks bytes) (identBuffer T s0 buffer0) (-1)
    (identify T (autobaudLoop T 50 ⟨s0, []⟩).2 buffer0).2.2
  obtain ⟨g1, g2⟩ := goCommand_acks T hT
    (recordLoop T (fileChunks bytes) (identBuffer T s0 buffer0) (-1)
      (identify T (autobaudLoop T 50 ⟨s0, []⟩).2 buffer0).2.2).2.2
    (startAfter (-1) (lineResults (identBuffer T s0 buffer0) (fileChunks bytes)))
  have hm : main T s0 buffer0 (Image.file bytes) =
      goCommand T (recordLoop T (fileChunks bytes) (identBuffer T s0 buffer0) (-1)
        (identify T (autobaudLoop T 50 ⟨s0, []⟩).2 buffer0).2.2).2.2
        (startAfter (-1) (lineResults (identBuffer T s0 buffer0) (fileChunks bytes))) := by
    unfold main
    simp only [a1, i1, load]
    unfold identBuffer at l1 l2 ⊢
    simp only [l1, l2]
  rw [hm]
  refine ⟨g1, ?_⟩
  rw [g2, l3, i2, a2]
  simp [exchangesOf]

theorem scanX_lt (width : Nat) (s : List Nat) (v : Nat) (rest : List Nat)
    (h : scanX width s = Conv.value v rest) : v < 2 ^ 32 := by
  unfold scanX at h
  split at h
  · exact absurd h (by simp)
  · simp only at h
    split at h
    · exact absurd h (by simp)
    · injection h with hv _
      rw [← hv]
      split_ifs <;> exact Nat.mod_lt _ (by norm_num)

theorem toInt32_lt {u : Nat} (h : u < 2 ^ 32) : toInt32 u < 2 ^ 31 := by
  unfold toInt32
  split_ifs with h1
  · exact_mod_cast h1
  · have : (u : Int) < 2 ^ 32 := by exact_mod_cast h
    omega

theorem sscanfLenAddr_recaddr_lt (s : List Nat) : (sscanfLenAddr s).recaddr < 2 ^ 31 := by
  unfold sscanfLenAddr
  split
  · norm_num
  · norm_num
  · split
    · rename_i a _ h
      exact toInt32_lt (scanX_lt _ _ _ _ h)
    · norm_num

theorem decodeData_length (buffer : List Nat) :
    ∀ (n i : Nat) (ds : List Nat), decodeData buffer n i = some ds →
      ds.length = n ∧ ∀ x ∈ ds, x < 256 := by
  intro n
  induction n with
  | zero =>
    intro i ds h
    simp [decodeData] at h
    subst h
    simp
  | succ n ih =>
    intro i ds h
    unfold decodeData at h
    simp only at h
    split_ifs at h with h1 h2
    cases hd : decodeData buffer n (i + 1) with
    | none => rw [hd] at h; simp at h
    | some ds' =>
      rw [hd] at h
      simp at h
      subst h
      obtain ⟨hl, hb⟩ := ih (i + 1) ds' hd
      refine ⟨by simp [hl], ?_⟩
      intro x hx
      simp at hx
      rcases hx with rfl | hx
      · omega
      · exact hb x hx

theorem decodeLine_record {buffer : List Nat} {a : Int} {d : List Nat}
    (h : decodeLine buffer = LineResult.record a d) :
    0 ≤ a ∧ a < 2 ^ 31 ∧ d.length ≤ 64 ∧ ∀ x ∈ d, x < 256 := by
  unfold decodeLine at h
  simp only at h
  split_ifs at h with h1 h2 hc
  split at h
  · exact absurd h (by simp)
  · rename_i data hd
    injection h with ha hdd
    subst ha hdd
    obtain ⟨hl, hb⟩ := decodeData_length _ _ _ _ hd
    refine ⟨hc.1, sscanfLenAddr_recaddr_lt _, ?_, hb⟩
    rw [hl]
    omega

theorem addrBytes_value (a : Int) (h0 : 0 ≤ a) (h1 : a < 2 ^ 32) :
    ∃ b0 b1 b2 b3 : Nat, addrBytes a = [b0, b1, b2, b3] ∧ b0 < 256 ∧ b1 < 256 ∧ b2 < 256 ∧
      b3 < 256 ∧ ((b0 * 2 ^ 24 + b1 * 2 ^ 16 + b2 * 2 ^ 8 + b3 : Nat) : Int) = a := by
  refine ⟨_, _, _, _, rfl, ?_, ?_, ?_, ?_, ?_⟩ <;> norm_num at h1 ⊢ <;> omega

theorem startAfter_set (s : Int) (hs : s ≠ -1) : ∀ rs : List LineResult, startAfter s rs = s := by
  intro rs
  induction rs with
  | nil => rfl
  | cons r rest ih =>
    cases r <;> simp [startAfter, setStart, hs, ih]

/-- C7 on the code: for the one-line image `S30900002000ZZ` the header passes,
the data loop fails and the line is skipped, no record is written, and yet the
address sent after the Go command is `00 00 20 00`, the address of the
skipped line. -/
theorem go_address_of_skipped_line :
    lineResults (identBuffer ackTarget () (List.replicate 256 0))
      (fileChunks [83, 51, 48, 57, 48, 48, 48, 48, 50, 48, 48, 48, 90, 90, 10]) =
        [LineResult.skipData 0x2000] ∧
    exchangesOf (main ackTarget () (List.replicate 256 0)
      (Image.file [83, 51, 48, 57, 48, 48, 48, 48, 50, 48, 48, 48, 90, 90, 10])).2.log =
        [([0x01], 100, 0), ([0x02], 100, 0), ([0x21], 100, 0), ([0, 0, 0x20, 0], 100, 0)] := by
  constructor <;> decide

/-- C8: entry-address selection.  If the first line of the image decodes to a
record with address `a` and the target acknowledges every exchange, then,
whatever the remaining lines are, the session ends with status 0 and its last
two exchanges are the Go command `[0x21]` and the four bytes of `a`, most
significant first; and `startaddr` equals `a` after the first line and after
every further line: it is set once and never changes. -/
theorem entry_address_first_record {σ : Type} (T : Transport σ) (s0 : σ)
    (buffer0 bytes chunk : List Nat) (rest : List (List Nat)) (a : Int) (d : List Nat)
    (hT : Acks T) (hchunks : fileChunks bytes = chunk :: rest)
    (hfirst : decodeLine (fgetsStore (identBuffer T s0 buffer0) chunk) = LineResult.record a d) :
    (main T s0 buffer0 (Image.file bytes)).1 = 0 ∧
    (∃ before, exchangesOf (main T s0 buffer0 (Image.file bytes)).2.log =
      before ++ [([0x21], 100, 0), (addrBytes a, 100, 0)]) ∧
    (∃ b0 b1 b2 b3 : Nat, addrBytes a = [b0, b1, b2, b3] ∧ b0 < 256 ∧ b1 < 256 ∧ b2 < 256 ∧
      b3 < 256 ∧ ((b0 * 2 ^ 24 + b1 * 2 ^ 16 + b2 * 2 ^ 8 + b3 : Nat) : Int) = a) ∧
    (∀ (k : Nat) (w : World σ),
      (recordLoop T ((chunk :: rest).take (k + 1)) (identBuffer T s0 buffer0) (-1) w).2.1 = a) := by
  obtain ⟨h0, h1, _, _⟩ := decodeLine_record hfirst
  have hne : a ≠ -1 := by omega
  have hstart : ∀ rs : List LineResult, startAfter (-1) (LineResult.record a d :: rs) = a := by
    intro rs
    simp only [startAfter, setStart, if_true]
    exact startAfter_set a hne rs
  obtain ⟨m1, m2⟩ := main_acks T hT s0 buffer0 bytes
  refine ⟨m1, ?_, addrBytes_value a h0 (by omega), ?_⟩
  · rw [m2, hchunks]
    simp only [lineResults, hfirst, hstart]
    have he : entryAddress a = a := by
      unfold entryAddress
      rw [if_neg hne]
    rw [he]
    exact ⟨_, rfl⟩
  · intro k w
    rw [(recordLoop_acks T hT _ _ _ w).2.1]
    simp only [List.take_succ_cons, lineResults, hfirst, hstart]

/-- C8 on `ackTarget`: the records at 0x2000 and then 0x1000 give the Go
address `00 00 20 00`. -/
theorem entry_address_first_record_witness :
    ∃ before, exchangesOf (main ackTarget () (List.replicate 256 0)
      (Image.file [83, 51, 48, 57, 48, 48, 48, 48, 50, 48, 48, 48, 68, 69, 65, 68, 66, 69, 69, 70,
        54, 65, 10, 83, 51, 48, 57, 48, 48, 48, 48, 49, 48, 48, 48, 68, 69, 65, 68, 66, 69, 69,
        70, 54, 65, 10])).2.log =
      before ++ [([0x21], 100, 0), (addrBytes 0x2000, 100, 0)] :=
  (entry_address_first_record ackTarget () (List.replicate 256 0)
    [83, 51, 48, 57, 48, 48, 48, 48, 50, 48, 48, 48, 68, 69, 65, 68, 66, 69, 69, 70,
      54, 65, 10, 83, 51, 48, 57, 48, 48, 48, 48, 49, 48, 48, 48, 68, 69, 65, 68, 66, 69, 69,
      70, 54, 65, 10]
    [83, 51, 48, 57, 48, 48, 48, 48, 50, 48, 48, 48, 68, 69, 65, 68, 66, 69, 69, 70, 54, 65, 10]
    [[83, 51, 48, 57, 48, 48, 48, 48, 49, 48, 48, 48, 68, 69, 65, 68, 66, 69, 69, 70, 54, 65, 10]]
    0x2000 [0xDE, 0xAD, 0xBE, 0xEF] ackTarget_acks (by decide) (by decide)).2.1

theorem clean_nil : Clean [] := by
  intro p t r h; simp at h

theorem clean_append {a b : List Event} (ha : Clean a) (hb : Clean b) : Clean (a ++ b) := by
  intro p t r h
  rcases List.mem_append.1 h with h | h
  · exact ha p t r h
  · exact hb p t r h

theorem inputOnly_clean {evs : List Event} (h : InputOnly evs) : Clean evs := by
  intro p t r hm
  rcases h _ hm with ⟨a, b, hab⟩ | ⟨a, b, c, habc⟩
  · exact absurd hab (by simp)
  · exact absurd habc (by simp)

theorem clean_write (d : List Nat) (r : Int) : Clean [Event.write d r] := by
  intro p t r h; simp at h

theorem transmit_trace {σ : Type} (T : Transport σ) (w : World σ) (data : List Nat)
    (timeout : Int) :
    ∃ mid, Clean mid ∧ (transmit_multi_c T w data timeout).2.log =
      w.log ++ mid ++ [Event.exchange data timeout (transmit_multi_c T w data timeout).1] := by
  by_cases hw : (T.write w.st data).1 = (data.length : Int)
  · obtain ⟨r2, ins, hin, hlog⟩ := transmit_ok T w data timeout hw
    refine ⟨[Event.write data (data.length : Int), Event.write [checksum data] r2] ++ ins,
      clean_append ?_ (inputOnly_clean hin), ?_⟩
    · intro p t r h; simp at h
    · rw [hlog]; simp
  · obtain ⟨hr, hlog⟩ := transmit_fail T w data timeout hw
    refine ⟨[Event.write data (T.write w.st data).1], clean_write _ _, ?_⟩
    rw [hlog, hr]; simp

theorem transmit_clean {σ : Type} (T : Transport σ) (w : World σ) (data : List Nat)
    (timeout : Int) (hc : Clean w.log) :
    ((transmit_multi_c T w data timeout).1 = 0 → Clean (transmit_multi_c T w data timeout).2.log) ∧
    ((transmit_multi_c T w data timeout).1 ≠ 0 →
      Stopped (transmit_multi_c T w data timeout).2.log) := by
  obtain ⟨mid, hmid, hlog⟩ := transmit_trace T w data timeout
  constructor
  · intro h0
    rw [hlog, h0]
    refine clean_append (clean_append hc hmid) ?_
    intro p t r h
    simp at h
    exact h.2.2
  · intro hne
    exact ⟨w.log ++ mid, data, timeout, _, hlog, hne, clean_append hc hmid⟩

theorem autobaud_clean {σ : Type} (T : Transport σ) :
    ∀ (n : Nat) (w : World σ), Clean w.log → Clean (autobaudLoop T n w).2.log := by
  intro n
  induction n with
  | zero => intro w hc; simpa [autobaudLoop] using hc
  | succ n ih =>
    intro w hc
    obtain ⟨evs, hlog, hin⟩ := receive_byte_log T (sysWrite T w [0x7f]).2 100
    have hw : Clean (sysWrite T w [0x7f]).2.log := clean_append hc (clean_write _ _)
    have hr : Clean (receive_byte T (sysWrite T w [0x7f]).2 100).2.log := by
      rw [hlog]
      exact clean_append hw (inputOnly_clean hin)
    unfold autobaudLoop
    split_ifs
    · exact hw
    · exact hr
    · exact ih _ hr

theorem receive_multi_clean {σ : Type} (T : Transport σ) (w : World σ) (data : List Nat)
    (len : Nat) (timeout : Int) (hc : Clean w.log) :
    Clean (receive_multi T w data len timeout).2.2.log := by
  obtain ⟨evs, hin, hlog⟩ := receive_multi_loop_log T len timeout len w data 0
  unfold receive_multi
  rw [hlog]
  exact clean_append hc (inputOnly_clean hin)

theorem identify_clean {σ : Type} (T : Transport σ) (w : World σ) (buffer : List Nat)
    (hc : Clean w.log) :
    ((identify T w buffer).1 = none → Clean (identify T w buffer).2.2.log) ∧
    (∀ st, (identify T w buffer).1 = some st →
      st = 2 ∧ (Clean (identify T w buffer).2.2.log ∨ Stopped (identify T w buffer).2.2.log)) := by
  obtain ⟨c1, s1⟩ := transmit_clean T w [0x01] 100 hc
  unfold identify
  simp only []
  split_ifs with h1 h2 h3 h4
  · exact ⟨fun h => absurd h (by simp), fun st h => ⟨by simpa using h.symm, Or.inr (s1 h1)⟩⟩
  · have c1' := c1 (not_not.1 h1)
    exact ⟨fun h => absurd h (by simp),
      fun st h => ⟨by simpa using h.symm, Or.inl (receive_multi_clean T _ _ _ _ c1')⟩⟩
  · have c1' := c1 (not_not.1 h1)
    have c2 := receive_multi_clean T _ buffer 4 100 c1'
    obtain ⟨_, s3⟩ := transmit_clean T _ [0x02] 100 c2
    exact ⟨fun h => absurd h (by simp), fun st h => ⟨by simpa using h.symm, Or.inr (s3 h3)⟩⟩
  · have c1' := c1 (not_not.1 h1)
    have c2 := receive_multi_clean T _ buffer 4 100 c1'
    obtain ⟨c3, _⟩ := transmit_clean T _ [0x02] 100 c2
    have c3' := c3 (not_not.1 h3)
    exact ⟨fun h => absurd h (by simp),
      fun st h => ⟨by simpa using h.symm, Or.inl (receive_multi_clean T _ _ _ _ c3')⟩⟩
  · have c1' := c1 (not_not.1 h1)
    have c2 := receive_multi_clean T _ buffer 4 100 c1'
    obtain ⟨c3, _⟩ := transmit_clean T _ [0x02] 100 c2
    have c3' := c3 (not_not.1 h3)
    exact ⟨fun _ => receive_multi_clean T _ _ _ _ c3', fun st h => absurd h (by simp)⟩

theorem recordLoop_clean {σ : Type} (T : Transport σ) :
    ∀ (chunks : List (List Nat)) (buffer : List Nat) (startaddr : Int) (w : World σ),
      Clean w.log →
      ((recordLoop T chunks buffer startaddr w).1 = none →
        Clean (recordLoop T chunks buffer startaddr w).2.2.log) ∧
      (∀ st, (recordLoop T chunks buffer startaddr w).1 = some st →
        st = 2 ∧ Stopped (recordLoop T chunks buffer startaddr w).2.2.log) := by
  intro chunks
  induction chunks with
  | nil =>
    intro buffer startaddr w hc
    exact ⟨fun _ => hc, fun st h => absurd h (by simp [recordLoop])⟩
  | cons chunk rest ih =>
    intro buffer startaddr w hc
    cases h : decodeLine (fgetsStore buffer chunk) with
    | skipTag => simpa [recordLoop, h] using ih (fgetsStore buffer chunk) startaddr w hc
    | skipHeader => simpa [recordLoop, h] using ih (fgetsStore buffer chunk) startaddr w hc
    | skipRange => simpa [recordLoop, h] using ih (fgetsStore buffer chunk) startaddr w hc
    | skipData a =>
      simpa [recordLoop, h] using ih (fgetsStore buffer chunk) (setStart startaddr a) w hc
    | record a d =>
      obtain ⟨c1, s1⟩ := transmit_clean T w [0x31] 100 hc
      simp only [recordLoop, h]
      split_ifs with h1 h2 h3
      · exact ⟨fun hn => absurd hn (by simp), fun st hs => ⟨by simpa using hs.symm, s1 h1⟩⟩
      · obtain ⟨_, s2⟩ := transmit_clean T _ (addrBytes a) 100 (c1 (not_not.1 h1))
        exact ⟨fun hn => absurd hn (by simp), fun st hs => ⟨by simpa using hs.symm, s2 h2⟩⟩
      · obtain ⟨c2, _⟩ := transmit_clean T _ (addrBytes a) 100 (c1 (not_not.1 h1))
        obtain ⟨_, s3⟩ := transmit_clean T _ (recdata d) 500 (c2 (not_not.1 h2))
        exact ⟨fun hn => absurd hn (by simp), fun st hs => ⟨by simpa using hs.symm, s3 h3⟩⟩
      · obtain ⟨c2, _⟩ := transmit_clean T _ (addrBytes a) 100 (c1 (not_not.1 h1))
        obtain ⟨c3, _⟩ := transmit_clean T _ (recdata d) 500 (c2 (not_not.1 h2))
        exact ih _ _ _ (c3 (not_not.1 h3))

theorem goCommand_eq {σ : Type} (T : Transport σ) (w : World σ) (startaddr : Int) :
    goCommand T w startaddr =
      if (transmit_multi_c T w [0x21] 100).1 ≠ 0 then (2, (transmit_multi_c T w [0x21] 100).2)
      else if (transmit_multi_c T (transmit_multi_c T w [0x21] 100).2
          (addrBytes (entryAddress startaddr)) 100).1 ≠ 0 then
        (2, (transmit_multi_c T (transmit_multi_c T w [0x21] 100).2
          (addrBytes (entryAddress startaddr)) 100).2)
      else (0, (transmit_multi_c T (transmit_multi_c T w [0x21] 100).2
          (addrBytes (entryAddress startaddr)) 100).2) := rfl

theorem goCommand_clean {σ : Type} (T : Transport σ) (w : World σ) (startaddr : Int)
    (hc : Clean w.log) :
    Clean (goCommand T w startaddr).2.log ∨
      ((goCommand T w startaddr).1 = 2 ∧ Stopped (goCommand T w startaddr).2.log) := by
  obtain ⟨c1, s1⟩ := transmit_clean T w [0x21] 100 hc
  rw [goCommand_eq]
  generalize entryAddress startaddr = e
  split_ifs with h1 h2
  · exact Or.inr ⟨rfl, s1 h1⟩
  · obtain ⟨_, s2⟩ := transmit_clean T _ (addrBytes e) 100 (c1 (not_not.1 h1))
    exact Or.inr ⟨rfl, s2 h2⟩
  · obtain ⟨c2, _⟩ := transmit_clean T _ (addrBytes e) 100 (c1 (not_not.1 h1))
    exact Or.inl (c2 (not_not.1 h2))

theorem main_clean {σ : Type} (T : Transport σ) (s0 : σ) (buffer0 : List Nat) (image : Image) :
    Clean (main T s0 buffer0 image).2.log ∨
      ((main T s0 buffer0 image).1 = 2 ∧ Stopped (main T s0 buffer0 image).2.log) := by
  have ca := autobaud_clean T 50 ⟨s0, []⟩ clean_nil
  obtain ⟨ci, si⟩ := identify_clean T (autobaudLoop T 50 ⟨s0, []⟩).2 buffer0 ca
  unfold main
  split
  · exact Or.inl ca
  · exact Or.inl ca
  · split
    · rename_i st hst
      obtain ⟨h2, hcs⟩ := si st hst
      rcases hcs with h | h
      · exact Or.inl h
      · exact Or.inr ⟨h2, h⟩
    · rename_i hnone
      have cl := ci hnone
      cases image with
      | omitted => exact Or.inl cl
      | unopenable => exact Or.inl cl
      | file bytes =>
        obtain ⟨cr, sr⟩ := recordLoop_clean T (fileChunks bytes)
          (identify T (autobaudLoop T 50 ⟨s0, []⟩).2 buffer0).2.1 (-1) _ cl
        simp only [load]
        split
        · rename_i st hst
          obtain ⟨h2, hs⟩ := sr st hst
          exact Or.inr ⟨h2, hs⟩
        · rename_i hn
          exact goCommand_clean T _ _ (cr hn)

theorem clean_ranged {l : List Event} (h : Clean l) : Ranged l :=
  fun p t r hm => Or.inl (h p t r hm)

theorem ranged_append {a b : List Event} (ha : Ranged a) (hb : Ranged b) : Ranged (a ++ b) := by
  intro p t r h
  rcases List.mem_append.1 h with h | h
  · exact ha p t r h
  · exact hb p t r h

theorem transmit_ranged {σ : Type} (T : Transport σ) (w : World σ) (data : List Nat)
    (timeout : Int) (hc : Ranged w.log) : Ranged (transmit_multi_c T w data timeout).2.log := by
  obtain ⟨mid, hmid, hlog⟩ := transmit_trace T w data timeout
  rw [hlog]
  refine ranged_append (ranged_append hc (clean_ranged hmid)) ?_
  intro p t r h
  simp at h
  rw [h.2.2]
  exact transmit_range T w data timeout

theorem receive_multi_ranged {σ : Type} (T : Transport σ) (w : World σ) (data : List Nat)
    (len : Nat) (timeout : Int) (hc : Ranged w.log) :
    Ranged (receive_multi T w data len timeout).2.2.log := by
  obtain ⟨evs, hin, hlog⟩ := receive_multi_loop_log T len timeout len w data 0
  unfold receive_multi
  rw [hlog]
  exact ranged_append hc (clean_ranged (inputOnly_clean hin))

theorem identify_ranged {σ : Type} (T : Transport σ) (w : World σ) (buffer : List Nat)
    (hc : Ranged w.log) : Ranged (identify T w buffer).2.2.log := by
  have c1 := transmit_ranged T w [0x01] 100 hc
  have c2 := receive_multi_ranged T _ buffer 4 100 c1
  have c3 := transmit_ranged T _ [0x02] 100 c2
  have c4 := receive_multi_ranged T _
    (receive_multi T (transmit_multi_c T w [0x01] 100).2 buffer 4 100).2.1 4 100 c3
  unfold identify
  simp only []
  split_ifs
  · exact c1
  · exact c2
  · exact c3
  · exact c4
  · exact c4

theorem recordLoop_ranged {σ : Type} (T : Transport σ) :
    ∀ (chunks : List (List Nat)) (buffer : List Nat) (startaddr : Int) (w : World σ),
      Ranged w.log → Ranged (recordLoop T chunks buffer startaddr w).2.2.log := by
  intro chunks
  induction chunks with
  | nil => intro buffer startaddr w hc; exact hc
  | cons chunk rest ih =>
    intro buffer startaddr w hc
    cases h : decodeLine (fgetsStore buffer chunk) with
    | skipTag => simpa [recordLoop, h] using ih (fgetsStore buffer chunk) startaddr w hc
    | skipHeader => simpa [recordLoop, h] using ih (fgetsStore buffer chunk) startaddr w hc
    | skipRange => simpa [recordLoop, h] using ih (fgetsStore buffer chunk) startaddr w hc
    | skipData a =>
      simpa [recordLoop, h] using ih (fgetsStore buffer chunk) (setStart startaddr a) w hc
    | record a d =>
      have c1 := transmit_ranged T w [0x31] 100 hc
      have c2 := transmit_ranged T _ (addrBytes a) 100 c1
      have c3 := transmit_ranged T _ (recdata d) 500 c2
      simp only [recordLoop, h]
      split_ifs
      · exact c1
      · exact c2
      · exact c3
      · exact ih _ _ _ c3

theorem goCommand_ranged {σ : Type} (T : Transport σ) (w : World σ) (startaddr : Int)
    (hc : Ranged w.log) : Ranged (goCommand T w startaddr).2.log := by
  have c1 := transmit_ranged T w [0x21] 100 hc
  have c2 := transmit_ranged T _ (addrBytes (entryAddress startaddr)) 100 c1
  rw [goCommand_eq]
  split_ifs
  · exact c1
  · exact c2
  · exact c2

theorem main_results {σ : Type} (T : Transport σ) (s0 : σ) (buffer0 : List Nat)
    (image : Image) : Ranged (main T s0 buffer0 image).2.log := by
  have ca := clean_ranged (autobaud_clean T 50 ⟨s0, []⟩ clean_nil)
  have ci := identify_ranged T (autobaudLoop T 50 ⟨s0, []⟩).2 buffer0 ca
  unfold main
  split
  · exact ca
  · exact ca
  · split
    · exact ci
    · cases image with
      | omitted => exact ci
      | unopenable => exact ci
      | file bytes =>
        have cr := recordLoop_ranged T (fileChunks bytes)
          (identify T (autobaudLoop T 50 ⟨s0, []⟩).2 buffer0).2.1 (-1) _ ci
        simp only [load]
        split
        · exact cr
        · exact goCommand_ranged T _ _ cr

/-- C9: fail-stop.  In every session, over any transport and any image, an
exchange whose result is not 0 (negative acknowledge -3, timeout -2, I/O
failure -1) is the last event of the trace, so nothing is written, waited for
or read after it, and the session returns 2; and a session that returns 0 has
had every exchange it issued acknowledged. -/
theorem fail_stop {σ : Type} (T : Transport σ) (s0 : σ) (buffer0 : List Nat) (image : Image) :
    (∀ before after p t r,
      (main T s0 buffer0 image).2.log = before ++ Event.exchange p t r :: after → r ≠ 0 →
        after = [] ∧ (main T s0 buffer0 image).1 = 2) ∧
    ((main T s0 buffer0 image).1 = 0 →
      ∀ p t r, Event.exchange p t r ∈ (main T s0 buffer0 image).2.log → r = 0) ∧
    (∀ p t r, Event.exchange p t r ∈ (main T s0 buffer0 image).2.log →
      r = 0 ∨ r = -1 ∨ r = -2 ∨ r = -3) := by
  refine ⟨?_, ?_, ?_⟩
  · intro before after p t r hlog hr
    rcases main_clean T s0 buffer0 image with hc | ⟨h2, b', p', t', r', hl', _, hcb⟩
    · exact absurd (hc p t r (by rw [hlog]; simp)) hr
    · rcases List.eq_nil_or_concat after with hnil | ⟨L, x, hx⟩
      · exact ⟨hnil, h2⟩
      · exfalso
        rw [hlog, hx] at hl'
        have h1 : before ++ Event.exchange p t r :: L.concat x =
            (before ++ Event.exchange p t r :: L) ++ [x] := by simp
        rw [h1] at hl'
        have h3 := List.append_inj_left' hl' rfl
        exact hr (hcb p t r (by rw [← h3]; simp))
  · intro h0
    rcases main_clean T s0 buffer0 image with hc | ⟨h2, _⟩
    · exact hc
    · rw [h0] at h2
      exact absurd h2 (by decide)
  · exact main_results T s0 buffer0 image

/-! ### The pass counter of `receive_multi` -/

theorem sysRead_ret {σ : Type} (T : Transport σ) (w : World σ) (n : Nat) :
    (sysRead T w n).ret = -1 ∨ (sysRead T w n).ret = ((sysRead T w n).bytes.length : Int) := by
  unfold sysRead
  rcases h : T.read w.st n with ⟨_ | bs, s⟩
  · left; rfl
  · right; simp

/-- The pass counter of `receive_multi_loop` never cuts the loop short: once
it covers the bytes still missing, more passes give the same result. -/
theorem receive_multi_loop_fuel {σ : Type} (T : Transport σ) (len : Nat) (timeout : Int) :
    ∀ (fuel k : Nat) (w : World σ) (data : List Nat) (r : Nat), len ≤ r + fuel →
      receive_multi_loop T len timeout (fuel + k) w data r =
        receive_multi_loop T len timeout fuel w data r := by
  intro fuel
  induction fuel with
  | zero =>
    intro k w data r hle
    cases k with
    | zero => rfl
    | succ k =>
      rw [Nat.zero_add, receive_multi_loop_succ T len timeout k w _ data r rfl,
        if_neg (by omega)]
      rfl
  | succ n ih =>
    intro k w data r hle
    obtain ⟨w1, hw1⟩ : ∃ w1 : World σ,
        w1 = if timeout ≠ 0 then (wait_input T w timeout).2 else w := ⟨_, rfl⟩
    have hk : n + 1 + k = (n + k) + 1 := by omega
    rw [hk, receive_multi_loop_succ T len timeout (n + k) w w1 data r hw1,
      receive_multi_loop_succ T len timeout n w w1 data r hw1]
    split_ifs with h1 h2 h3 h4
    · rfl
    · rfl
    · rfl
    · apply ih
      rcases sysRead_ret T w1 len with h | h
      · omega
      · omega
    · rfl

theorem recordLoop_skipTag {σ : Type} (T : Transport σ) (w : World σ) (chunk : List Nat)
    (rest : List (List Nat)) (buffer : List Nat) (startaddr : Int)
    (h : decodeLine (fgetsStore buffer chunk) = LineResult.skipTag) :
    recordLoop T (chunk :: rest) buffer startaddr w =
      recordLoop T rest (fgetsStore buffer chunk) startaddr w := by
  simp only [recordLoop, h]

theorem recordLoop_skipHeader {σ : Type} (T : Transport σ) (w : World σ) (chunk : List Nat)
    (rest : List (List Nat)) (buffer : List Nat) (startaddr : Int)
    (h : decodeLine (fgetsStore buffer chunk) = LineResult.skipHeader) :
    recordLoop T (chunk :: rest) buffer startaddr w =
      recordLoop T rest (fgetsStore buffer chunk) startaddr w := by
  simp only [recordLoop, h]

theorem recordLoop_skipRange {σ : Type} (T : Transport σ) (w : World σ) (chunk : List Nat)
    (rest : List (List Nat)) (buffer : List Nat) (startaddr : Int)
    (h : decodeLine (fgetsStore buffer chunk) = LineResult.skipRange) :
    recordLoop T (chunk :: rest) buffer startaddr w =
      recordLoop T rest (fgetsStore buffer chunk) startaddr w := by
  simp only [recordLoop, h]

theorem recordLoop_skipData {σ : Type} (T : Transport σ) (w : World σ) (chunk : List Nat)
    (rest : List (List Nat)) (buffer : List Nat) (startaddr a : Int)
    (h : decodeLine (fgetsStore buffer chunk) = LineResult.skipData a) :
    recordLoop T (chunk :: rest) buffer startaddr w =
      recordLoop T rest (fgetsStore buffer chunk) (setStart startaddr a) w := by
  simp only [recordLoop, h]

theorem wireBytes_append (a b : List Event) : wireBytes (a ++ b) = wireBytes a ++ wireBytes b := by
  induction a with
  | nil => rfl
  | cons e t ih => cases e <;> simp [wireBytes, ih]

theorem inputOnly_wireBytes {evs : List Event} (h : InputOnly evs) : wireBytes evs = [] := by
  induction evs with
  | nil => rfl
  | cons e t ih =>
    have ht : InputOnly t := fun x hx => h x (by simp [hx])
    rcases h e (by simp) with ⟨a, b, rfl⟩ | ⟨a, b, c, rfl⟩ <;>
      simpa [wireBytes] using ih ht

theorem xor_foldl_start (l : List Nat) (a : Nat) :
    l.foldl (fun c d => c ^^^ d) a = a ^^^ l.foldl (fun c d => c ^^^ d) 0 := by
  induction l generalizing a with
  | nil => simp
  | cons x t ih =>
    simp only [List.foldl_cons]
    rw [ih (a ^^^ x), ih (0 ^^^ x)]
    simp [Nat.xor_assoc]

theorem checksum_multi (data : List Nat) (h : 2 ≤ data.length) :
    checksum data = data.foldl (fun c d => c ^^^ d) 0 := by
  match data, h with
  | a :: b :: t, _ => simp [checksum]

/-- C14: the frame of a multi-byte payload has XOR-fold zero.  For a payload
of two or more bytes whose write is complete, the bytes `transmit_multi_c`
puts on the wire are the payload followed by its checksum byte, and the
XOR-fold of that frame is 0. -/
theorem frame_xor_zero {σ : Type} (T : Transport σ) (w : World σ) (data : List Nat)
    (timeout : Int) (hw : (T.write w.st data).1 = (data.length : Int))
    (h2 : 2 ≤ data.length) :
    wireBytes (transmit_multi_c T w data timeout).2.log =
      wireBytes w.log ++ (data ++ [checksum data]) ∧
    (data ++ [checksum data]).foldl (fun c d => c ^^^ d) 0 = 0 := by
  constructor
  · obtain ⟨r2, ins, hin, hlog⟩ := transmit_ok T w data timeout hw
    rw [hlog]
    simp only [wireBytes_append, inputOnly_wireBytes hin]
    simp [wireBytes]
  · rw [List.foldl_append, checksum_multi data h2]
    simp

/-- C14 on `ackTarget`: the address frame `00 00 20 00 20` and the data frame
`03 DE AD BE EF 21` fold to 0. -/
theorem frame_xor_zero_witness :
    wireBytes (transmit_multi_c ackTarget ⟨(), []⟩ [3, 0xDE, 0xAD, 0xBE, 0xEF] 500).2.log =
      wireBytes [] ++ ([3, 0xDE, 0xAD, 0xBE, 0xEF] ++ [checksum [3, 0xDE, 0xAD, 0xBE, 0xEF]]) ∧
    checksum [3, 0xDE, 0xAD, 0xBE, 0xEF] = 0x21 ∧
    ([0, 0, 0x20, 0] ++ [checksum [0, 0, 0x20, 0]]).foldl (fun c d => c ^^^ d) 0 = 0 :=
  ⟨(frame_xor_zero ackTarget ⟨(), []⟩ [3, 0xDE, 0xAD, 0xBE, 0xEF] 500 (by decide)
      (by decide)).1, by decide, by decide⟩

/-- C16: the single-byte checksum.  For every byte `b`, `0xFF - b` is the
bitwise complement of `b` in eight bits (every one of the bits 0..7 is
inverted and the result is a byte), which is `b XOR 0xFF`; and it differs from
`b`, the XOR-fold of the one-byte payload. -/
theorem single_byte_checksum (b : Nat) (hb : b < 256) :
    checksum [b] = 0xFF - b ∧ checksum [b] = b ^^^ 0xFF ∧ checksum [b] < 256 ∧
    (∀ i, i < 8 → (checksum [b]).testBit i = !(b.testBit i)) ∧
    checksum [b] ≠ [b].foldl (fun c d => c ^^^ d) 0 := by
  have hc : checksum [b] = 0xff - b := by simp [checksum]
  have hx : 0xff - b = b ^^^ 0xFF := by
    interval_cases b <;> rfl
  refine ⟨hc, by rw [hc, hx], by rw [hc]; omega, ?_, ?_⟩
  · intro i hi
    rw [hc, hx, Nat.testBit_xor]
    have : (0xFF : Nat).testBit i = true := by
      interval_cases i <;> rfl
    rw [this]
    simp
  · rw [hc]
    simp only [List.foldl_cons, List.foldl_nil, Nat.zero_xor]
    omega

/-- C16 for the command bytes: 0x01 gives 0xFE, 0x31 gives 0xCE. -/
theorem single_byte_checksum_witness :
    checksum [0x01] = 0xFF - 0x01 ∧ checksum [0x31] = 0x31 ^^^ 0xFF ∧ checksum [0x31] = 0xCE :=
  ⟨(single_byte_checksum 0x01 (by decide)).1, (single_byte_checksum 0x31 (by decide)).2.1,
    by decide⟩

theorem decodeLine_record_header {buffer : List Nat} {a : Int} {d : List Nat}
    (h : decodeLine buffer = LineResult.record a d) :
    buffer.take 2 = [83, 51] ∧ (lineHeader buffer).ret = 2 ∧ a = (lineHeader buffer).recaddr ∧
    (d.length : Int) = (lineHeader buffer).reclength - 5 ∧
    decodeData buffer d.length 0 = some d := by
  unfold decodeLine at h
  unfold lineHeader
  simp only at h
  split_ifs at h with h1 h2 hc
  split at h
  · exact absurd h (by simp)
  · rename_i data hd
    injection h with ha hdd
    subst ha hdd
    obtain ⟨hl, _⟩ := decodeData_length _ _ _ _ hd
    refine ⟨not_not.1 h1, not_not.1 h2, rfl, ?_, ?_⟩
    · rw [hl]; omega
    · rw [hl]; exact hd

/-- C20: the data exchange of a record.  For an accepted record with data
`d`, whose length is the length field minus 5: if `d` is empty (length field
05) the payload is the single byte 0xFF, the single-byte rule gives the
checksum 0x00, and the exchange writes exactly the bytes FF 00; if `d` has
`n ≥ 1` bytes the payload is the length byte `n - 1`, which is at most 63, and
then `d`, and the checksum written after it is the XOR-fold of the whole
payload. -/
theorem data_exchange_bytes {σ : Type} (T : Transport σ) (w : World σ) (buffer : List Nat)
    (a : Int) (d : List Nat) (hrec : decodeLine buffer = LineResult.record a d)
    (hw : (T.write w.st (recdata d)).1 = ((recdata d).length : Int)) :
    (d.length : Int) = (lineHeader buffer).reclength - 5 ∧
    (d = [] → recdata d = [0xFF] ∧ checksum (recdata d) = 0x00 ∧
      wireBytes (transmit_multi_c T w (recdata d) 500).2.log = wireBytes w.log ++ [0xFF, 0x00]) ∧
    (1 ≤ d.length → recdata d = (d.length - 1) :: d ∧ d.length - 1 ≤ 63 ∧
      checksum (recdata d) = (recdata d).foldl (fun c x => c ^^^ x) 0 ∧
      wireBytes (transmit_multi_c T w (recdata d) 500).2.log =
        wireBytes w.log ++ ((d.length - 1) :: d ++ [((d.length - 1) :: d).foldl
          (fun c x => c ^^^ x) 0])) := by
  obtain ⟨_, _, hl, _⟩ := decodeLine_record hrec
  obtain ⟨_, _, _, hlen, _⟩ := decodeLine_record_header hrec
  obtain ⟨r2, ins, hin, hlog⟩ := transmit_ok T w (recdata d) 500 hw
  have hwire : wireBytes (transmit_multi_c T w (recdata d) 500).2.log =
      wireBytes w.log ++ (recdata d ++ [checksum (recdata d)]) := by
    rw [hlog]
    simp only [wireBytes_append, inputOnly_wireBytes hin]
    simp [wireBytes]
  refine ⟨hlen, ?_, ?_⟩
  · intro hd
    subst hd
    have h1 : recdata [] = [0xFF] := by decide
    have h2 : checksum (recdata []) = 0x00 := by decide
    refine ⟨h1, h2, ?_⟩
    rw [hwire, h2, h1]
    rfl
  · intro hn
    have h1 : recdata d = (d.length - 1) :: d := by
      unfold recdata
      congr 1
      omega
    have h2 : checksum (recdata d) = (recdata d).foldl (fun c x => c ^^^ x) 0 :=
      checksum_multi _ (by simp [recdata]; omega)
    refine ⟨h1, by omega, h2, ?_⟩
    rw [hwire, h2, h1]

/-- C20 on `ackTarget`: the line `S30500002000FA` gives the data exchange
`FF 00`, the line `S30900002000DEADBEEF6A` gives `03 DE AD BE EF 21`. -/
theorem data_exchange_bytes_witness :
    wireBytes (transmit_multi_c ackTarget ⟨(), []⟩ (recdata []) 500).2.log =
      wireBytes [] ++ [0xFF, 0x00] ∧
    wireBytes (transmit_multi_c ackTarget ⟨(), []⟩ (recdata [0xDE, 0xAD, 0xBE, 0xEF]) 500).2.log =
      [3, 0xDE, 0xAD, 0xBE, 0xEF, 0x21] :=
  ⟨((data_exchange_bytes ackTarget ⟨(), []⟩
      (fgetsStore (List.replicate 256 0)
        [83, 51, 48, 53, 48, 48, 48, 48, 50, 48, 48, 48, 70, 65, 10])
      0x2000 [] (by decide) (by decide)).2.1 rfl).2.2, by decide⟩

theorem decodeData_none (buffer : List Nat) :
    ∀ (n i0 j : Nat), j < n → byteConverts (dataPair buffer (i0 + j)) = false →
      decodeData buffer n i0 = none := by
  intro n
  induction n with
  | zero => intro i0 j hj _; omega
  | succ n ih =>
    intro i0 j hj hbad
    unfold decodeData
    simp only []
    by_cases h1 : (sscanfByte (cstr ((buffer.drop (i0 * 2 + 12)).take 2))).1 ≠ 1
    · rw [if_pos h1]
    · rw [if_neg h1]
      by_cases h2 : ¬ (0 ≤ (sscanfByte (cstr ((buffer.drop (i0 * 2 + 12)).take 2))).2 ∧
          (sscanfByte (cstr ((buffer.drop (i0 * 2 + 12)).take 2))).2 ≤ 255)
      · rw [if_pos h2]
      · rw [if_neg h2]
        cases j with
        | zero =>
          exfalso
          have hconv : byteConverts (dataPair buffer i0) = true := by
            unfold byteConverts dataPair
            exact decide_eq_true ⟨not_not.1 h1, not_not.1 h2⟩
          rw [Nat.add_zero, hconv] at hbad
          exact absurd hbad (by simp)
        | succ j' =>
          have hidx : i0 + (j' + 1) = (i0 + 1) + j' := by omega
          rw [hidx] at hbad
          rw [ih (i0 + 1) j' (by omega) hbad]
          rfl

theorem byteConverts_bad_first (c0 : Nat) (tl : List Nat) (hx : isxdigit c0 = false)
    (hs : isspace c0 = false) (hp : c0 ≠ 43) (hm : c0 ≠ 45) :
    byteConverts (c0 :: tl) = false := by
  have hv : hexval c0 = none := by
    unfold isxdigit at hx
    cases h : hexval c0 with
    | none => rfl
    | some d => rw [h] at hx; simp at hx
  have hret : (sscanfByte (cstr (c0 :: tl))).1 ≠ 1 := by
    by_cases h0 : c0 = 0
    · subst h0
      simp [cstr, sscanfByte, scanX]
    · have hc : cstr (c0 :: tl) = c0 :: cstr tl := by
        simp [cstr, h0]
      have hb : ∀ w s, (scanBody w (c0 :: s)).1 = [] := by
        intro w s
        have h48 : c0 ≠ 48 := by
          intro h; subst h; simp [hexval] at hv
        match w, s with
        | 0, s => simp [scanBody, scanDigits]
        | 1, s => simp [scanBody, scanDigits, hv]
        | w + 2, [] => simp [scanBody, scanDigits, hv]
        | w + 2, x :: t => simp [scanBody, scanDigits, hv, h48]
      rw [hc]
      simp only [sscanfByte, scanX, List.dropWhile_cons, hs, Bool.false_eq_true, if_false, hp, hm,
        or_self, hb]
      simp
  unfold byteConverts
  exact decide_eq_false (fun h => hret h.1)

/-- What the data loop does reject: a data position that the `%02X`
conversion does not turn into a value in `0..255` discards the whole record.
If for some
`i` below the effective length the two characters at offsets `12 + 2i`,
`13 + 2i` are not accepted by lines 146-157, the line is not decoded to a
record, and the loop goes on to the next line with the same world: nothing is
transmitted, no exchange is issued.  A position is never accepted when its
first character is neither a hexadecimal digit nor white space nor a sign. -/
theorem unconverted_data_discards_record {σ : Type} (T : Transport σ) (w : World σ)
    (chunk : List Nat) (rest : List (List Nat)) (buffer : List Nat) (startaddr : Int) (i : Nat)
    (hi : (i : Int) < (lineHeader (fgetsStore buffer chunk)).reclength - 5)
    (hbad : byteConverts (dataPair (fgetsStore buffer chunk) i) = false) :
    isRecord (decodeLine (fgetsStore buffer chunk)) = false ∧
    (∃ s, recordLoop T (chunk :: rest) buffer startaddr w =
      recordLoop T rest (fgetsStore buffer chunk) s w) ∧
    (∀ c0 tl, isxdigit c0 = false → isspace c0 = false → c0 ≠ 43 → c0 ≠ 45 →
      byteConverts (c0 :: tl) = false) := by
  have hnot : ∀ a d, decodeLine (fgetsStore buffer chunk) ≠ LineResult.record a d := by
    intro a d h
    obtain ⟨_, _, _, hlen, hd⟩ := decodeLine_record_header h
    have hlt : i < d.length := by omega
    have := decodeData_none (fgetsStore buffer chunk) d.length 0 i hlt (by simpa using hbad)
    rw [this] at hd
    exact absurd hd (by simp)
  refine ⟨?_, ?_, byteConverts_bad_first⟩
  · cases h : decodeLine (fgetsStore buffer chunk) with
    | record a d => exact absurd h (hnot a d)
    | _ => rfl
  · cases h : decodeLine (fgetsStore buffer chunk) with
    | skipTag => exact ⟨_, recordLoop_skipTag T w chunk rest buffer startaddr h⟩
    | skipHeader => exact ⟨_, recordLoop_skipHeader T w chunk rest buffer startaddr h⟩
    | skipRange => exact ⟨_, recordLoop_skipRange T w chunk rest buffer startaddr h⟩
    | skipData a => exact ⟨_, recordLoop_skipData T w chunk rest buffer startaddr a h⟩
    | record a d => exact absurd h (hnot a d)

/-- The line `S30600002000Z56A`, whose data position holds `Z5`, is not
decoded to a record. -/
theorem unconverted_data_discards_record_witness :
    (lineHeader (fgetsStore (List.replicate 256 0)
      [83, 51, 48, 54, 48, 48, 48, 48, 50, 48, 48, 48, 90, 53, 54, 65, 10])).reclength - 5 = 1 ∧
    isRecord (decodeLine (fgetsStore (List.replicate 256 0)
      [83, 51, 48, 54, 48, 48, 48, 48, 50, 48, 48, 48, 90, 53, 54, 65, 10])) = false :=
  ⟨by decide, (unconverted_data_discards_record ackTarget ⟨(), []⟩
    [83, 51, 48, 54, 48, 48, 48, 48, 50, 48, 48, 48, 90, 53, 54, 65, 10] []
    (List.replicate 256 0) (-1) 0 (by decide) (by decide)).1⟩

/-- C11 on the code: in the line `S306000020005Z6A` the header decodes,
the effective length is 1, and the data position holds `5Z`, which is not two
hexadecimal digits; yet `%02X` converts the `5`, the line is decoded to a
record with the data byte 0x05, and its three exchanges are issued. -/
theorem one_digit_data_accepted :
    lineHeader (fgetsStore (List.replicate 256 0)
      [83, 51, 48, 54, 48, 48, 48, 48, 50, 48, 48, 48, 53, 90, 54, 65, 10]) = ⟨2, 6, 0x2000⟩ ∧
    dataPair (fgetsStore (List.replicate 256 0)
      [83, 51, 48, 54, 48, 48, 48, 48, 50, 48, 48, 48, 53, 90, 54, 65, 10]) 0 = [53, 90] ∧
    isxdigit 90 = false ∧
    decodeLine (fgetsStore (List.replicate 256 0)
      [83, 51, 48, 54, 48, 48, 48, 48, 50, 48, 48, 48, 53, 90, 54, 65, 10]) =
        LineResult.record 0x2000 [0x05] ∧
    exchangesOf (main ackTarget () (List.replicate 256 0)
      (Image.file [83, 51, 48, 54, 48, 48, 48, 48, 50, 48, 48, 48, 53, 90, 54, 65, 10])).2.log =
        [([0x01], 100, 0), ([0x02], 100, 0), ([0x31], 100, 0), ([0, 0, 0x20, 0], 100, 0),
          ([0, 0x05], 500, 0), ([0x21], 100, 0), ([0, 0, 0x20, 0], 100, 0)] := by
  refine ⟨by decide, by decide, by decide, by decide, by decide⟩

theorem autobaud_writes {σ : Type} (T : Transport σ) :
    ∀ (n : Nat) (w : World σ), ∃ k, k ≤ n ∧
      writesOf (autobaudLoop T n w).2.log = writesOf w.log ++ List.replicate k [0x7f] ∧
      exchangesOf (autobaudLoop T n w).2.log = exchangesOf w.log ∧
      ((autobaudLoop T n w).1 = Sync.ok → 1 ≤ k) := by
  intro n
  induction n with
  | zero =>
    intro w
    exact ⟨0, le_refl _, by simp [autobaudLoop], by simp [autobaudLoop],
      by simp [autobaudLoop]⟩
  | succ n ih =>
    intro w
    obtain ⟨evs, hlog, hin⟩ := receive_byte_log T (sysWrite T w [0x7f]).2 100
    have hw1 : writesOf (sysWrite T w [0x7f]).2.log = writesOf w.log ++ [[0x7f]] := by
      simp [sysWrite, writesOf_append, writesOf]
    have he1 : exchangesOf (sysWrite T w [0x7f]).2.log = exchangesOf w.log := by
      simp [sysWrite, exchangesOf_append, exchangesOf]
    have hw2 : writesOf (receive_byte T (sysWrite T w [0x7f]).2 100).2.log =
        writesOf w.log ++ [[0x7f]] := by
      rw [hlog, writesOf_append, inputOnly_writesOf hin, hw1]
      simp
    have he2 : exchangesOf (receive_byte T (sysWrite T w [0x7f]).2 100).2.log =
        exchangesOf w.log := by
      rw [hlog, exchangesOf_append, inputOnly_exchangesOf hin, he1]
      simp
    unfold autobaudLoop
    split_ifs with h1 h2
    · exact ⟨1, by omega, by simpa using hw1, he1, fun _ => le_refl _⟩
    · exact ⟨1, by omega, by simpa using hw2, he2, fun _ => le_refl _⟩
    · obtain ⟨k, hk, hwr, hex, _⟩ := ih (receive_byte T (sysWrite T w [0x7f]).2 100).2
      refine ⟨k + 1, by omega, ?_, ?_, fun _ => by omega⟩
      · rw [hwr, hw2, List.append_assoc]
        congr 1
      · rw [hex, he2]

theorem transmit_ok_writes {σ : Type} (T : Transport σ) (w : World σ) (data : List Nat)
    (timeout : Int) (hw : (T.write w.st data).1 = (data.length : Int)) :
    writesOf (transmit_multi_c T w data timeout).2.log =
      writesOf w.log ++ [data, [checksum data]] := by
  obtain ⟨r2, ins, hin, hlog⟩ := transmit_ok T w data timeout hw
  rw [hlog]
  simp only [writesOf_append, inputOnly_writesOf hin]
  simp [writesOf]

theorem transmit_fail_writes {σ : Type} (T : Transport σ) (w : World σ) (data : List Nat)
    (timeout : Int) (hw : (T.write w.st data).1 ≠ (data.length : Int)) :
    writesOf (transmit_multi_c T w data timeout).2.log = writesOf w.log ++ [data] := by
  rw [(transmit_fail T w data timeout hw).2, writesOf_append]
  simp [writesOf]

theorem transmit_zero {σ : Type} (T : Transport σ) (w : World σ) (data : List Nat)
    (timeout : Int) (h : (transmit_multi_c T w data timeout).1 = 0) :
    writesOf (transmit_multi_c T w data timeout).2.log =
      writesOf w.log ++ [data, [checksum data]] ∧
    exchangesOf (transmit_multi_c T w data timeout).2.log =
      exchangesOf w.log ++ [(data, timeout, 0)] := by
  have hw : (T.write w.st data).1 = (data.length : Int) := by
    by_contra hne
    have := (transmit_fail T w data timeout hne).1
    omega
  obtain ⟨r2, ins, hin, hlog⟩ := transmit_ok T w data timeout hw
  refine ⟨transmit_ok_writes T w data timeout hw, ?_⟩
  rw [hlog, h]
  simp only [exchangesOf_append, inputOnly_exchangesOf hin]
  simp [exchangesOf]

theorem transmit_writes_mem {σ : Type} (T : Transport σ) (w : World σ) (data : List Nat)
    (timeout : Int) :
    ∀ d ∈ writesOf (transmit_multi_c T w data timeout).2.log,
      d ∈ writesOf w.log ∨ d = data ∨ d = [checksum data] := by
  intro d hd
  by_cases hw : (T.write w.st data).1 = (data.length : Int)
  · rw [transmit_ok_writes T w data timeout hw, List.mem_append] at hd
    rcases hd with h | h
    · exact Or.inl h
    · simp at h
      exact Or.inr h
  · rw [transmit_fail_writes T w data timeout hw, List.mem_append] at hd
    rcases hd with h | h
    · exact Or.inl h
    · simp at h
      exact Or.inr (Or.inl h)

theorem receive_multi_writes {σ : Type} (T : Transport σ) (w : World σ) (data : List Nat)
    (len : Nat) (timeout : Int) :
    writesOf (receive_multi T w data len timeout).2.2.log = writesOf w.log ∧
    exchangesOf (receive_multi T w data len timeout).2.2.log = exchangesOf w.log := by
  obtain ⟨evs, hin, hlog⟩ := receive_multi_loop_log T len timeout len w data 0
  unfold receive_multi
  rw [hlog, writesOf_append, exchangesOf_append, inputOnly_writesOf hin,
    inputOnly_exchangesOf hin]
  simp

/-- Identification goes through exactly when both exchanges are acknowledged
and both reads of four response bytes return 0. -/
theorem identify_none_iff {σ : Type} (T : Transport σ) (w : World σ) (buffer : List Nat) :
    (identify T w buffer).1 = none ↔
      (transmit_multi_c T w [0x01] 100).1 = 0 ∧
      (receive_multi T (transmit_multi_c T w [0x01] 100).2 buffer 4 100).1 = 0 ∧
      (transmit_multi_c T
        (receive_multi T (transmit_multi_c T w [0x01] 100).2 buffer 4 100).2.2 [0x02] 100).1 = 0 ∧
      (receive_multi T (transmit_multi_c T
        (receive_multi T (transmit_multi_c T w [0x01] 100).2 buffer 4 100).2.2 [0x02] 100).2
        (receive_multi T (transmit_multi_c T w [0x01] 100).2 buffer 4 100).2.1 4 100).1 = 0 := by
  unfold identify
  simp only []
  split_ifs with h1 h2 h3 h4
  · simp [h1]
  · simp [h2]
  · simp [h3]
  · simp [h4]
  · simp [not_not.1 h1, not_not.1 h2, not_not.1 h3, not_not.1 h4]

theorem identify_none_trace {σ : Type} (T : Transport σ) (w : World σ) (buffer : List Nat)
    (h : (identify T w buffer).1 = none) :
    writesOf (identify T w buffer).2.2.log =
      writesOf w.log ++ [[0x01], [0xFE], [0x02], [0xFD]] ∧
    exchangesOf (identify T w buffer).2.2.log =
      exchangesOf w.log ++ [([0x01], 100, 0), ([0x02], 100, 0)] := by
  obtain ⟨t1, m1, t2, m2⟩ := (identify_none_iff T w buffer).1 h
  obtain ⟨a1, b1⟩ := transmit_zero T w [0x01] 100 t1
  obtain ⟨a2, b2⟩ := receive_multi_writes T (transmit_multi_c T w [0x01] 100).2 buffer 4 100
  obtain ⟨a3, b3⟩ := transmit_zero T _ [0x02] 100 t2
  obtain ⟨a4, b4⟩ := receive_multi_writes T (transmit_multi_c T
    (receive_multi T (transmit_multi_c T w [0x01] 100).2 buffer 4 100).2.2 [0x02] 100).2
    (receive_multi T (transmit_multi_c T w [0x01] 100).2 buffer 4 100).2.1 4 100
  have hrun : (identify T w buffer).2.2 =
      (receive_multi T (transmit_multi_c T
        (receive_multi T (transmit_multi_c T w [0x01] 100).2 buffer 4 100).2.2 [0x02] 100).2
        (receive_multi T (transmit_multi_c T w [0x01] 100).2 buffer 4 100).2.1 4 100).2.2 := by
    unfold identify
    simp only [t1, m1, t2, m2, ne_eq, not_true_eq_false, if_false]
  rw [hrun, a4, a3, a2, a1, b4, b3, b2, b1]
  have c1 : checksum [0x01] = 0xFE := by decide
  have c2 : checksum [0x02] = 0xFD := by decide
  rw [c1, c2]
  simp

theorem identify_writes_mem {σ : Type} (T : Transport σ) (w : World σ) (buffer : List Nat) :
    ∀ d ∈ writesOf (identify T w buffer).2.2.log,
      d ∈ writesOf w.log ∨ d ∈ [[0x01], [0xFE], [0x02], [0xFD]] := by
  have c1 : checksum [0x01] = 0xFE := by decide
  have c2 : checksum [0x02] = 0xFD := by decide
  have s1 : ∀ d ∈ writesOf (transmit_multi_c T w [0x01] 100).2.log,
      d ∈ writesOf w.log ∨ d ∈ [[0x01], [0xFE], [0x02], [0xFD]] := by
    intro d hd
    rcases transmit_writes_mem T w [0x01] 100 d hd with h | h | h
    · exact Or.inl h
    · right; rw [h]; simp
    · right; rw [h, c1]; simp
  have s2 : ∀ d ∈ writesOf (receive_multi T (transmit_multi_c T w [0x01] 100).2 buffer 4
      100).2.2.log, d ∈ writesOf w.log ∨ d ∈ [[0x01], [0xFE], [0x02], [0xFD]] := by
    intro d hd
    rw [(receive_multi_writes T _ buffer 4 100).1] at hd
    exact s1 d hd
  have s3 : ∀ d ∈ writesOf (transmit_multi_c T
      (receive_multi T (transmit_multi_c T w [0x01] 100).2 buffer 4 100).2.2 [0x02] 100).2.log,
      d ∈ writesOf w.log ∨ d ∈ [[0x01], [0xFE], [0x02], [0xFD]] := by
    intro d hd
    rcases transmit_writes_mem T _ [0x02] 100 d hd with h | h | h
    · exact s2 d h
    · right; rw [h]; simp
    · right; rw [h, c2]; simp
  have s4 : ∀ d ∈ writesOf (receive_multi T (transmit_multi_c T
      (receive_multi T (transmit_multi_c T w [0x01] 100).2 buffer 4 100).2.2 [0x02] 100).2
      (receive_multi T (transmit_multi_c T w [0x01] 100).2 buffer 4 100).2.1 4 100).2.2.log,
      d ∈ writesOf w.log ∨ d ∈ [[0x01], [0xFE], [0x02], [0xFD]] := by
    intro d hd
    rw [(receive_multi_writes T _ _ 4 100).1] at hd
    exact s3 d hd
  unfold identify
  simp only []
  split_ifs
  · exact s1
  · exact s2
  · exact s3
  · exact s4
  · exact s4

/-- In a run without image, over any transport and whatever its outcome,
nothing is written but sync bytes and the bytes of the Get-Version and Get-ID
frames. -/
theorem identification_only_writes {σ : Type} (T : Transport σ) (s0 : σ) (buffer0 : List Nat) :
    ∀ d ∈ writesOf (main T s0 buffer0 Image.omitted).2.log,
      d ∈ [[0x7f], [0x01], [0xFE], [0x02], [0xFD]] := by
  obtain ⟨k, _, hwr, _, _⟩ := autobaud_writes T 50 ⟨s0, []⟩
  have ha : ∀ d ∈ writesOf (autobaudLoop T 50 ⟨s0, []⟩).2.log,
      d ∈ [[0x7f], [0x01], [0xFE], [0x02], [0xFD]] := by
    intro d hd
    rw [hwr] at hd
    simp [writesOf] at hd
    simp [hd.2]
  have hi : ∀ d ∈ writesOf (identify T (autobaudLoop T 50 ⟨s0, []⟩).2 buffer0).2.2.log,
      d ∈ [[0x7f], [0x01], [0xFE], [0x02], [0xFD]] := by
    intro d hd
    rcases identify_writes_mem T _ buffer0 d hd with h | h
    · exact ha d h
    · simp at h ⊢
      tauto
  unfold main
  split
  · exact ha
  · exact ha
  · split
    · exact hi
    · exact hi

/-- C15 with the response reads named: when no image path is given,
synchronization succeeds and identification goes through (both exchanges are
acknowledged and both reads of four response bytes succeed), the session
returns 0; it has written the sync byte `k` times, `1 ≤ k ≤ 50`, then `01 FE`
and `02 FD` and nothing else, its only exchanges are Get-Version and Get-ID,
and so no Memory-Write (0x31) or Go (0x21) command was sent. -/
theorem identification_only_run {σ : Type} (T : Transport σ) (s0 : σ) (buffer0 : List Nat)
    (hsync : (autobaudLoop T 50 ⟨s0, []⟩).1 = Sync.ok)
    (hid : (identify T (autobaudLoop T 50 ⟨s0, []⟩).2 buffer0).1 = none) :
    (main T s0 buffer0 Image.omitted).1 = 0 ∧
    (∃ k, 1 ≤ k ∧ k ≤ 50 ∧
      writesOf (main T s0 buffer0 Image.omitted).2.log =
        List.replicate k [0x7f] ++ [[0x01], [0xFE], [0x02], [0xFD]]) ∧
    exchangesOf (main T s0 buffer0 Image.omitted).2.log =
      [([0x01], 100, 0), ([0x02], 100, 0)] ∧
    (∀ d ∈ writesOf (main T s0 buffer0 Image.omitted).2.log, d ≠ [0x31] ∧ d ≠ [0x21]) := by
  obtain ⟨k, hk, hwr, hex, hk1⟩ := autobaud_writes T 50 ⟨s0, []⟩
  obtain ⟨iw, ie⟩ := identify_none_trace T _ buffer0 hid
  have hm : main T s0 buffer0 Image.omitted =
      (0, (identify T (autobaudLoop T 50 ⟨s0, []⟩).2 buffer0).2.2) := by
    unfold main
    simp only [hsync, hid, load]
  rw [hm]
  refine ⟨rfl, ⟨k, hk1 hsync, hk, ?_⟩, ?_, ?_⟩
  · show writesOf (identify T (autobaudLoop T 50 ⟨s0, []⟩).2 buffer0).2.2.log = _
    rw [iw, hwr]
    simp [writesOf]
  · show exchangesOf (identify T (autobaudLoop T 50 ⟨s0, []⟩).2 buffer0).2.2.log = _
    rw [ie, hex]
    simp [exchangesOf]
  · intro d hd
    have := identification_only_writes T s0 buffer0 d (by rw [hm]; exact hd)
    simp at this
    rcases this with h | h | h | h | h <;> subst h <;> decide

/-- C15 on `ackTarget`: one sync byte, `01 FE`, `02 FD`, status 0. -/
theorem identification_only_run_witness :
    (main ackTarget () (List.replicate 256 0) Image.omitted).1 = 0 ∧
    writesOf (main ackTarget () (List.replicate 256 0) Image.omitted).2.log =
      [[0x7f], [0x01], [0xFE], [0x02], [0xFD]] :=
  ⟨(identification_only_run ackTarget () (List.replicate 256 0) (by decide) (by decide)).1,
    by decide⟩

/-- C15 as stated fails: against a target that acknowledges the sync byte and
both identification commands, sends the four bytes after Get-Version and then
nothing after Get-ID, synchronization and both identification exchanges
succeed, and the session returns 2 because the second read of four response
bytes times out. -/
theorem identification_read_timeout :
    (autobaudLoop scripted 50
      ⟨[Reply.bytes [0x79], Reply.bytes [0x79], Reply.bytes [0x31, 0, 0, 0x79],
        Reply.bytes [0x79]], []⟩).1 = Sync.ok ∧
    exchangesOf (main scripted
      [Reply.bytes [0x79], Reply.bytes [0x79], Reply.bytes [0x31, 0, 0, 0x79],
        Reply.bytes [0x79]] (List.replicate 256 0) Image.omitted).2.log =
      [([0x01], 100, 0), ([0x02], 100, 0)] ∧
    (main scripted
      [Reply.bytes [0x79], Reply.bytes [0x79], Reply.bytes [0x31, 0, 0, 0x79],
        Reply.bytes [0x79]] (List.replicate 256 0) Image.omitted).1 = 2 := by
  refine ⟨by decide, by decide, by decide⟩

/-- C17 on the code: asked for four bytes, `receive_multi` gets one byte from
its first `read` and then asks for four again instead of three; the second
`read` delivers four, so the call returns 0 having taken five bytes from the
port and stored them at indices 0..4 of the array. -/
theorem receive_multi_overrun :
    (receive_multi scripted ⟨[Reply.bytes [0xAA], Reply.bytes [1, 2, 3, 4]], []⟩
      (List.replicate 8 0) 4 100).1 = 0 ∧
    (receive_multi scripted ⟨[Reply.bytes [0xAA], Reply.bytes [1, 2, 3, 4]], []⟩
      (List.replicate 8 0) 4 100).2.1 = [0xAA, 1, 2, 3, 4, 0, 0, 0] ∧
    (receive_multi scripted ⟨[Reply.bytes [0xAA], Reply.bytes [1, 2, 3, 4]], []⟩
      (List.replicate 8 0) 4 100).2.2.log =
      [Event.poll 100 1, Event.read 4 1 [0xAA], Event.poll 100 1, Event.read 4 4 [1, 2, 3, 4]] := by
  refine ⟨by decide, by decide, by decide⟩

/-- C18 on the code: the line `S3091234` ends before its header does, the
header conversion still succeeds (length 09, address 1234), and the data loop
reads offsets 12..19, which the line did not write.  After the line
`S30900002000DEADBEEF6A` it is decoded to a record with the data DE AD BE EF,
after `S30900002000CAFEF00D6A` to a record with the data CA FE F0 0D, after
`S30900002000ZZZZZZZZ6A` it is skipped; the exchanges issued for it differ
accordingly. -/
theorem stale_buffer_decides_line :
    lineResults (identBuffer ackTarget () (List.replicate 256 0))
      (fileChunks [83, 51, 48, 57, 48, 48, 48, 48, 50, 48, 48, 48, 68, 69, 65, 68, 66, 69, 69, 70,
        54, 65, 10, 83, 51, 48, 57, 49, 50, 51, 52, 10]) =
      [LineResult.record 0x2000 [0xDE, 0xAD, 0xBE, 0xEF],
        LineResult.record 0x1234 [0xDE, 0xAD, 0xBE, 0xEF]] ∧
    lineResults (identBuffer ackTarget () (List.replicate 256 0))
      (fileChunks [83, 51, 48, 57, 48, 48, 48, 48, 50, 48, 48, 48, 67, 65, 70, 69, 70, 48, 48, 68,
        54, 65, 10, 83, 51, 48, 57, 49, 50, 51, 52, 10]) =
      [LineResult.record 0x2000 [0xCA, 0xFE, 0xF0, 0x0D],
        LineResult.record 0x1234 [0xCA, 0xFE, 0xF0, 0x0D]] ∧
    lineResults (identBuffer ackTarget () (List.replicate 256 0))
      (fileChunks [83, 51, 48, 57, 48, 48, 48, 48, 50, 48, 48, 48, 90, 90, 90, 90, 90, 90, 90, 90,
        54, 65, 10, 83, 51, 48, 57, 49, 50, 51, 52, 10]) =
      [LineResult.skipData 0x2000, LineResult.skipData 0x1234] ∧
    exchangesOf (main ackTarget () (List.replicate 256 0)
      (Image.file [83, 51, 48, 57, 48, 48, 48, 48, 50, 48, 48, 48, 68, 69, 65, 68, 66, 69, 69, 70,
        54, 65, 10, 83, 51, 48, 57, 49, 50, 51, 52, 10])).2.log =
      [([0x01], 100, 0), ([0x02], 100, 0),
        ([0x31], 100, 0), ([0, 0, 0x20, 0], 100, 0), ([3, 0xDE, 0xAD, 0xBE, 0xEF], 500, 0),
        ([0x31], 100, 0), ([0, 0, 0x12, 0x34], 100, 0), ([3, 0xDE, 0xAD, 0xBE, 0xEF], 500, 0),
        ([0x21], 100, 0), ([0, 0, 0x20, 0], 100, 0)] ∧
    exchangesOf (main ackTarget () (List.replicate 256 0)
      (Image.file [83, 51, 48, 57, 48, 48, 48, 48, 50, 48, 48, 48, 90, 90, 90, 90, 90, 90, 90, 90,
        54, 65, 10, 83, 51, 48, 57, 49, 50, 51, 52, 10])).2.log =
      [([0x01], 100, 0), ([0x02], 100, 0), ([0x21], 100, 0), ([0, 0, 0x20, 0], 100, 0)] := by
  refine ⟨by decide, by decide, by decide, by decide, by decide⟩

theorem dataLoopAccess_bounds (buffer : List Nat) :
    ∀ (n i : Nat),
      (∀ x ∈ (dataLoopAccess buffer n i).1, 12 ≤ x ∧ x ≤ 2 * (i + n) + 11) ∧
      (∀ x ∈ (dataLoopAccess buffer n i).2.1, x ≤ 2) ∧
      (∀ x ∈ (dataLoopAccess buffer n i).2.2, i + 1 ≤ x ∧ x ≤ i + n) := by
  intro n
  induction n with
  | zero => intro i; simp [dataLoopAccess]
  | succ n ih =>
    intro i
    obtain ⟨h1, h2, h3⟩ := ih (i + 1)
    have hr : ∀ x ∈ [i * 2 + 12, i * 2 + 13], 12 ≤ x ∧ x ≤ 2 * (i + (n + 1)) + 11 := by
      intro x hx
      simp at hx
      omega
    have hw : ∀ x ∈ [0, 1, 2], x ≤ 2 := by
      intro x hx
      simp at hx
      omega
    unfold dataLoopAccess
    simp only []
    split_ifs
    · exact ⟨hr, hw, by simp⟩
    · refine ⟨?_, ?_, ?_⟩
      · intro x hx
        rcases List.mem_append.1 hx with h | h
        · exact hr x h
        · have := h1 x h
          omega
      · intro x hx
        rcases List.mem_append.1 hx with h | h
        · exact hw x h
        · exact h2 x h
      · intro x hx
        rcases List.mem_cons.1 hx with h | h
        · omega
        · have := h3 x h
          omega
    · exact ⟨hr, hw, by simp⟩

theorem dataLoopAccess_record (buffer : List Nat) :
    ∀ (n i : Nat) (d : List Nat), decodeData buffer n i = some d →
      (dataLoopAccess buffer n i).2.2 = (List.range n).map (fun j => i + 1 + j) := by
  intro n
  induction n with
  | zero => intro i d _; simp [dataLoopAccess]
  | succ n ih =>
    intro i d h
    unfold decodeData at h
    simp only at h
    split_ifs at h with h1 h2
    cases hd : decodeData buffer n (i + 1) with
    | none => rw [hd] at h; simp at h
    | some ds =>
      have := ih (i + 1) ds hd
      unfold dataLoopAccess
      simp only []
      rw [if_neg h1, if_neg (not_not.2 h2)]
      simp only [this, List.range_succ_eq_map, List.map_cons, List.map_map]
      simp only [Nat.add_zero, List.cons.injEq, true_and]
      apply List.map_congr_left
      intro j _
      simp only [Function.comp]
      omega

theorem fileChunksAux_lengths : ∀ (f cur : List Nat), cur.length < 255 →
    ∀ c ∈ fileChunksAux f cur, 1 ≤ c.length ∧ c.length ≤ 255 := by
  intro f
  induction f with
  | nil =>
    intro cur hcur c hc
    unfold fileChunksAux at hc
    split_ifs at hc with h
    · simp at hc
    · simp at hc
      rw [hc]
      refine ⟨?_, by omega⟩
      cases cur with
      | nil => exact absurd rfl h
      | cons x t => simp
  | cons x f ih =>
    intro cur hcur c hc
    unfold fileChunksAux at hc
    split_ifs at hc with h
    · rcases List.mem_cons.1 hc with h1 | h1
      · subst h1
        simp
        omega
      · exact ih [] (by simp) c h1
    · exact ih (cur ++ [x]) (by simp; omega) c hc

/-- Every line `fgets` delivers holds between 1 and 255 characters, so with
its terminating NUL it fits the 256-byte array. -/
theorem fileChunks_lengths (file : List Nat) :
    ∀ c ∈ fileChunks file, 1 ≤ c.length ∧ c.length ≤ 255 :=
  fileChunksAux_lengths file [] (by simp)

theorem fgetsStore_length (buffer chunk : List Nat) (hb : buffer.length = 256)
    (hc : chunk.length ≤ 255) : (fgetsStore buffer chunk).length = 256 := by
  unfold fgetsStore
  simp
  omega

/-- C19: index safety of the record decoder.  For every content of the line
buffer, every index of `buffer` that the loop body reads is at most 139 and so
below 256 (the header reads are the indices 0..11, the data reads lie between
12 and `2 * n + 11` for the effective length `n ≤ 64`); every write to
`buffer2`, which has 16 elements, is at an index of at most 10; and every
write to `recdata` is at an index below its declared size `n + 1`, which is
at most 65.  For a line decoded to a record with data `d` the writes to
`recdata` are the indices `1..d.length` and then 0, into `d.length + 1`
elements. -/
theorem decoder_index_safety (buffer : List Nat) :
    (∀ x ∈ (decodeAccess buffer).bufferReads,
      x ≤ 139 ∧ x < 256 ∧ (x ≤ 11 ∨ x ≤ 2 * (decodeAccess buffer).recdataSize + 9)) ∧
    (∀ x ∈ (decodeAccess buffer).buffer2Writes, x ≤ 10 ∧ x < 16) ∧
    (∀ x ∈ (decodeAccess buffer).recdataWrites, x < (decodeAccess buffer).recdataSize) ∧
    (decodeAccess buffer).recdataSize ≤ 65 ∧
    (∀ a d, decodeLine buffer = LineResult.record a d →
      (decodeAccess buffer).recdataSize = d.length + 1 ∧
      (decodeAccess buffer).recdataWrites =
        (List.range d.length).map (fun j => 0 + 1 + j) ++ [0]) := by
  have hh : ∀ x ∈ [0, 1, 2, 3, 4, 5, 6, 7, 8, 9, 10, 11], x ≤ 11 := by
    intro x hx
    simp at hx
    omega
  have hb : ∀ x ∈ [0, 1, 2, 3, 4, 5, 6, 7, 8, 9, 10], x ≤ 10 := by
    intro x hx
    simp at hx
    omega
  have h4 : ∀ x ∈ [0, 1, 2, 3], x ≤ 3 := by
    intro x hx
    simp at hx
    omega
  by_cases h1 : buffer.take 2 ≠ [83, 51]
  · have ha : decodeAccess buffer = ⟨[0, 1], [], [], 0⟩ := by
      unfold decodeAccess
      rw [if_pos h1]
    have hl : decodeLine buffer = LineResult.skipTag := by
      unfold decodeLine
      rw [if_pos h1]
    rw [ha, hl]
    refine ⟨?_, by simp, by simp, by simp, by simp⟩
    intro x hx
    simp at hx
    omega
  · by_cases h2 : (sscanfLenAddr (cstr ((buffer.drop 2).take 10))).ret ≠ 2
    · have ha : decodeAccess buffer =
          ⟨[0, 1, 2, 3, 4, 5, 6, 7, 8, 9, 10, 11], [0, 1, 2, 3, 4, 5, 6, 7, 8, 9, 10], [], 0⟩ := by
        unfold decodeAccess
        rw [if_neg h1]
        simp only []
        rw [if_pos h2]
      have hl : decodeLine buffer = LineResult.skipHeader := by
        unfold decodeLine
        rw [if_neg h1]
        simp only []
        rw [if_pos h2]
      rw [ha, hl]
      refine ⟨?_, ?_, by simp, by simp, by simp⟩
      · intro x hx
        have := hh x hx
        omega
      · intro x hx
        have := hb x hx
        omega
    · by_cases h3 : ¬ (0 ≤ (sscanfLenAddr (cstr ((buffer.drop 2).take 10))).recaddr ∧
          (sscanfLenAddr (cstr ((buffer.drop 2).take 10))).recaddr % 2 ^ 32 ≤ 0xffffffff ∧
          0 ≤ (sscanfLenAddr (cstr ((buffer.drop 2).take 10))).reclength - 5 ∧
          (sscanfLenAddr (cstr ((buffer.drop 2).take 10))).reclength - 5 ≤ 64)
      · have ha : decodeAccess buffer =
            ⟨[0, 1, 2, 3, 4, 5, 6, 7, 8, 9, 10, 11], [0, 1, 2, 3, 4, 5, 6, 7, 8, 9, 10], [],
              0⟩ := by
          unfold decodeAccess
          rw [if_neg h1]
          simp only []
          rw [if_neg h2, if_pos h3]
        have hl : decodeLine buffer = LineResult.skipRange := by
          unfold decodeLine
          rw [if_neg h1]
          simp only []
          rw [if_neg h2, if_pos h3]
        rw [ha, hl]
        refine ⟨?_, ?_, by simp, by simp, by simp⟩
        · intro x hx
          have := hh x hx
          omega
        · intro x hx
          have := hb x hx
          omega
      · have hc := not_not.1 h3
        obtain ⟨n, hn⟩ : ∃ n : Nat,
            n = ((sscanfLenAddr (cstr ((buffer.drop 2).take 10))).reclength - 5).toNat :=
          ⟨_, rfl⟩
        have hn64 : n ≤ 64 := by omega
        obtain ⟨b1, b2, b3⟩ := dataLoopAccess_bounds buffer n 0
        cases hd : decodeData buffer n 0 with
        | none =>
          have ha : decodeAccess buffer =
              ⟨[0, 1, 2, 3, 4, 5, 6, 7, 8, 9, 10, 11] ++ (dataLoopAccess buffer n 0).1,
                [0, 1, 2, 3, 4, 5, 6, 7, 8, 9, 10] ++ (dataLoopAccess buffer n 0).2.1,
                (dataLoopAccess buffer n 0).2.2, n + 1⟩ := by
            unfold decodeAccess
            rw [if_neg h1]
            simp only []
            rw [if_neg h2, if_neg h3, ← hn, hd]
          have hl : decodeLine buffer =
              LineResult.skipData (sscanfLenAddr (cstr ((buffer.drop 2).take 10))).recaddr := by
            unfold decodeLine
            rw [if_neg h1]
            simp only []
            rw [if_neg h2, if_neg h3, ← hn, hd]
          rw [ha, hl]
          refine ⟨?_, ?_, ?_, by simp; omega, by simp⟩
          · intro x hx
            rcases List.mem_append.1 hx with h | h
            · have := hh x h
              simp only
              omega
            · have := b1 x h
              simp only
              omega
          · intro x hx
            rcases List.mem_append.1 hx with h | h
            · have := hb x h
              omega
            · have := b2 x h
              omega
          · intro x hx
            have := b3 x hx
            simp only at this ⊢
            omega
        | some d =>
          have ha : decodeAccess buffer =
              ⟨[0, 1, 2, 3, 4, 5, 6, 7, 8, 9, 10, 11] ++ (dataLoopAccess buffer n 0).1,
                [0, 1, 2, 3, 4, 5, 6, 7, 8, 9, 10] ++ (dataLoopAccess buffer n 0).2.1
                  ++ [0, 1, 2, 3],
                (dataLoopAccess buffer n 0).2.2 ++ [0], n + 1⟩ := by
            unfold decodeAccess
            rw [if_neg h1]
            simp only []
            rw [if_neg h2, if_neg h3, ← hn, hd]
          have hl : decodeLine buffer =
              LineResult.record (sscanfLenAddr (cstr ((buffer.drop 2).take 10))).recaddr d := by
            unfold decodeLine
            rw [if_neg h1]
            simp only []
            rw [if_neg h2, if_neg h3, ← hn, hd]
          have hdl := (decodeData_length buffer n 0 d hd).1
          rw [ha, hl]
          refine ⟨?_, ?_, ?_, by simp; omega, ?_⟩
          · intro x hx
            rcases List.mem_append.1 hx with h | h
            · have := hh x h
              simp only
              omega
            · have := b1 x h
              simp only
              omega
          · intro x hx
            rcases List.mem_append.1 hx with h | h
            · rcases List.mem_append.1 h with h | h
              · have := hb x h
                omega
              · have := b2 x h
                omega
            · have := h4 x h
              omega
          · intro x hx
            rcases List.mem_append.1 hx with h | h
            · have := b3 x h
              simp only at this ⊢
              omega
            · simp at h
              simp only
              omega
          · intro a d' hrec
            injection hrec with _ hdd
            subst hdd
            refine ⟨by simp only; omega, ?_⟩
            simp only
            rw [dataLoopAccess_record buffer n 0 d hd, hdl]

end Bootload
